import Mathlib

/-! Digital wallet: the transfer engine, the reads, the handlers and the worker.

A shallow embedding of `internal/service/wallet_service.go`, of the
repositories it calls (`internal/repository/*.go`), of the handlers of
`internal/handler/handler.go` and of the loop of `internal/worker/worker.go`,
over an explicit model of
the three collaborators: the relational store (tables `wallets` and
`transactions`, with the schema declared by the gorm tags of
`internal/domain/models.go` and installed by `AutoMigrate` in
`pkg/postgres/postgres.go`), the key-value cache and the message queue.

Every call a function makes to a collaborator is recorded in a call trace, and
every such call may fail for a reason outside the program (an `Env` carries
the outcome of each call, the clock and the identifier the store generates).
-/

namespace DigitalWallet

/-! ## Identifiers (`uuid.UUID`, an array of 16 bytes) -/

/-- The type `uuid.UUID`: sixteen bytes. -/
structure UUID where
  bytes : List (Fin 256)
  size : bytes.length = 16
deriving DecidableEq

/-- The table `hextable` of `encoding/hex`. -/
def hextable : List Char :=
  ['0', '1', '2', '3', '4', '5', '6', '7', '8', '9', 'a', 'b', 'c', 'd', 'e', 'f']

/-- One hexadecimal digit, `hextable[n]`. -/
def hexDigit (n : Nat) : Char := hextable.getD n '0'

/-- The function `hex.Encode`: two digits per byte, `hextable[v>>4]` then `hextable[v&0x0f]`. -/
def hexEncode : List (Fin 256) → List Char
  | [] => []
  | b :: bs => hexDigit (b.val / 16) :: hexDigit (b.val % 16) :: hexEncode bs

/-- The function `encodeHex` of `uuid`: the form `xxxxxxxx-xxxx-xxxx-xxxx-xxxxxxxxxxxx`. -/
def encodeHex (u : List (Fin 256)) : List Char :=
  hexEncode (u.take 4) ++ '-' :: (hexEncode ((u.drop 4).take 2) ++ '-' ::
    (hexEncode ((u.drop 6).take 2) ++ '-' :: (hexEncode ((u.drop 8).take 2) ++ '-' ::
      hexEncode (u.drop 10))))

/-- The method `UUID.String()`: the canonical string form of an identifier. -/
def UUID.string (u : UUID) : String := String.mk (encodeHex u.bytes)

/-- Lexicographic comparison of two character sequences, the order of Go's
comparison operators on strings. -/
def lexLess : List Char → List Char → Bool
  | [], [] => false
  | [], _ :: _ => true
  | _ :: _, [] => false
  | a :: as, b :: bs =>
    if a.toNat < b.toNat then true else if b.toNat < a.toNat then false else lexLess as bs

/-- Go's `a < b` on strings. -/
def strLess (a b : String) : Bool := lexLess a.data b.data

/-- The value `uuid.Nil`, the zero value of an identifier. -/
def UUID.Nil : UUID := ⟨List.replicate 16 0, by simp⟩

/-- The identifier whose first fifteen bytes are zero and whose last byte is `n`. -/
def UUID.ofByte (n : Fin 256) : UUID := ⟨List.replicate 15 0 ++ [n], by simp⟩

/-! ## Machine integers (`int64`) -/

/-- The least `int64`. -/
def MinInt64 : Int := -9223372036854775808

/-- The greatest `int64`. -/
def MaxInt64 : Int := 9223372036854775807

/-- A value that an `int64` variable can hold. -/
def IsInt64 (x : Int) : Prop := MinInt64 ≤ x ∧ x ≤ MaxInt64

instance (x : Int) : Decidable (IsInt64 x) := by unfold IsInt64; infer_instance

/-- Two's complement wrap-around of `int64` arithmetic. -/
def wrap64 (x : Int) : Int := (x + 9223372036854775808) % 18446744073709551616 - 9223372036854775808

/-! ## Data model (`internal/domain/models.go`) -/

/-- The struct `domain.Wallet`; times are instants of the store's clock. -/
structure Wallet where
  ID : UUID
  UserID : UUID
  Balance : Int
  CreatedAt : Nat
  UpdatedAt : Nat
deriving DecidableEq

/-- The struct `domain.Transaction`; a nil pointer is `none`. -/
structure Transaction where
  ID : UUID
  SenderID : Option UUID
  ReceiverID : Option UUID
  Amount : Int
  Type_ : String
  CreatedAt : Nat
deriving DecidableEq

/-- The struct `domain.TransferEvent`. -/
structure TransferEvent where
  TransactionID : UUID
  SenderID : UUID
  ReceiverID : UUID
  Amount : Int
deriving DecidableEq

/-! ## Errors (`internal/domain/errors.go` and the values made at call sites) -/

/-- Go error values. The first five are the package variables of
`domain/errors.go`; `New` is a value made by `errors.New` inside a function
body; `Errorf` is a value made by `fmt.Errorf` with `%w`; `ErrRecordNotFound`
is gorm's; `CheckViolation` is the store refusing a row that breaks a check
constraint; `Driver` is any other failure reported by a collaborator; `Panic`
stands for a run-time panic (the call does not return at all). -/
inductive Error where
  | ErrWalletNotFound
  | ErrInsufficientFunds
  | ErrInvalidAmount
  | ErrSelfTransfer
  | ErrInternalServerError
  | New (msg : String)
  | Errorf (text : String) (cause : Error)
  | ErrRecordNotFound
  | CheckViolation
  | Driver (msg : String)
  | Panic (msg : String)
deriving DecidableEq

/-- The method `Error()`: the message of an error value. -/
def Error.message : Error → String
  | .ErrWalletNotFound => "wallet not found"
  | .ErrInsufficientFunds => "insufficient funds"
  | .ErrInvalidAmount => "amount must be positive"
  | .ErrSelfTransfer => "cannot transfer money to yourself"
  | .ErrInternalServerError => "internal server error"
  | .New msg => msg
  | .Errorf text cause => text ++ cause.message
  | .ErrRecordNotFound => "record not found"
  | .CheckViolation => "violates check constraint (SQLSTATE 23514)"
  | .Driver msg => msg
  | .Panic msg => msg

/-- The five error values declared in `domain/errors.go`. -/
def Error.isDomain : Error → Bool
  | .ErrWalletNotFound => true
  | .ErrInsufficientFunds => true
  | .ErrInvalidAmount => true
  | .ErrSelfTransfer => true
  | .ErrInternalServerError => true
  | _ => false

/-! ## The collaborators -/

/-- The relational store: the rows of the two tables. -/
structure DB where
  wallets : List Wallet
  transactions : List Transaction
deriving DecidableEq

/-- The store, the cache (key `wallet:<id>`, value the wallet snapshot) and the
bodies published to the queue `wallet_transfers`. -/
structure World where
  db : DB
  cache : List (UUID × Wallet)
  queue : List TransferEvent
deriving DecidableEq

/-- A call made to a collaborator. -/
inductive Call where
  | Begin
  | Commit
  | Rollback
  | GetByIDWithLock (id : UUID)
  | UpdateBalance (id : UUID) (newBalance : Int)
  | CreateTransaction (t : Transaction)
  | InvalidateWallet (id : UUID)
  | PublishTransferEvent (e : TransferEvent)
  | GetWallet (id : UUID)
  | GetByID (id : UUID)
  | SetWallet (w : Wallet)
  | CreateWallet (w : Wallet)
deriving DecidableEq

/-- The calls that write to the store: a balance update or a log append. -/
def Call.isWrite : Call → Bool
  | .UpdateBalance _ _ => true
  | .CreateTransaction _ => true
  | _ => false

/-- The id of a locking read, `none` for any other call. -/
def Call.lockedID : Call → Option UUID
  | .GetByIDWithLock id => some id
  | _ => none

/-- The ids whose row lock a trace requests, in the order of the requests. -/
def lockRequests (calls : List Call) : List UUID := calls.filterMap Call.lockedID

/-- Failures from outside the program, one per call that `TransferMoney` can
make: `none` when the collaborator is reachable and does its work, `some msg`
when the call fails with the driver's message `msg`. -/
structure Faults where
  begin : Option String
  lockFirst : Option String
  lockSecond : Option String
  updateSender : Option String
  updateReceiver : Option String
  create : Option String
  commit : Option String
  invalidateSender : Option String
  invalidateReceiver : Option String
  publish : Option String
deriving DecidableEq

/-- No failure at all. -/
def Faults.none : Faults := ⟨.none, .none, .none, .none, .none, .none, .none, .none, .none, .none⟩

/-- The store answers every call of a unit of work. -/
def Faults.storeOK (f : Faults) : Prop :=
  f.begin = .none ∧ f.lockFirst = .none ∧ f.lockSecond = .none ∧ f.updateSender = .none ∧
    f.updateReceiver = .none ∧ f.create = .none ∧ f.commit = .none

instance (f : Faults) : Decidable f.storeOK := by unfold Faults.storeOK; infer_instance

/-- What a call of `TransferMoney` meets outside the program: the failures, the
clock (`autoCreateTime`, `autoUpdateTime`) and the identifier that the store's
`gen_random_uuid()` gives to a new transaction row. -/
structure Env where
  faults : Faults
  now : Nat
  newID : UUID
deriving DecidableEq

/-- The same environment with other outcomes for the three calls made after the
commit: the two cache invalidations and the publish. -/
def Env.withPost (env : Env) (f1 f2 f3 : Option String) : Env :=
  { env with faults :=
      { env.faults with invalidateSender := f1, invalidateReceiver := f2, publish := f3 } }

/-! ## The repositories (`internal/repository`) -/

/-- A unit of work in progress: the working copy of the tables and the calls
made so far. -/
structure Tx where
  db : DB
  calls : List Call
deriving DecidableEq

/-- The first row of `wallets` with the given id, as `First(&wallet, "id = ?", id)` finds it. -/
def DB.findWallet (db : DB) (id : UUID) : Option Wallet :=
  db.wallets.find? (fun w => decide (w.ID = id))

/-- The stored balance of a wallet. -/
def DB.balanceOf (db : DB) (id : UUID) : Option Int :=
  (db.findWallet id).map (fun w => w.Balance)

/-- The method `walletRepository.GetByIDWithLock`: a locking read of one row
inside the unit of work. -/
def GetByIDWithLock (fault : Option String) (tx : Tx) (id : UUID) : Except Error Wallet × Tx :=
  let tx1 : Tx := ⟨tx.db, tx.calls ++ [Call.GetByIDWithLock id]⟩
  match fault with
  | some msg => (.error (.Driver msg), tx1)
  | none =>
    match tx.db.findWallet id with
    | none => (.error .ErrRecordNotFound, tx1)
    | some w => (.ok w, tx1)

/-- The effect of `UPDATE wallets SET balance = ?, updated_at = ? WHERE id = ?` on one row. -/
def setBalance (now : Nat) (id : UUID) (newBalance : Int) (w : Wallet) : Wallet :=
  if w.ID = id then { w with Balance := newBalance, UpdatedAt := now } else w

/-- The method `walletRepository.UpdateBalance`: `UPDATE wallets SET balance = ?,
updated_at = ? WHERE id = ?` inside the unit of work. The column carries the
constraint `check:balance >= 0` of `domain.Wallet`, so the store refuses a
negative new balance for an existing row. -/
def UpdateBalance (fault : Option String) (now : Nat) (tx : Tx) (id : UUID) (newBalance : Int) :
    Option Error × Tx :=
  let calls := tx.calls ++ [Call.UpdateBalance id newBalance]
  match fault with
  | some msg => (some (.Driver msg), ⟨tx.db, calls⟩)
  | none =>
    if newBalance < 0 ∧ (tx.db.findWallet id).isSome then (some .CheckViolation, ⟨tx.db, calls⟩)
    else
      (none, ⟨⟨tx.db.wallets.map (setBalance now id newBalance), tx.db.transactions⟩, calls⟩)

/-- The method `transactionRepository.Create`: inserts the row inside the unit
of work; the store fills in the generated identifier and the creation time,
and gorm writes them back into the struct. -/
def CreateTransaction (env : Env) (tx : Tx) (transaction : Transaction) :
    Transaction × Option Error × Tx :=
  let calls := tx.calls ++ [Call.CreateTransaction transaction]
  match env.faults.create with
  | some msg => (transaction, some (.Driver msg), ⟨tx.db, calls⟩)
  | none =>
    let row : Transaction := { transaction with ID := env.newID, CreatedAt := env.now }
    (row, none, ⟨⟨tx.db.wallets, tx.db.transactions ++ [row]⟩, calls⟩)

/-- What the function passed to `WithTx` leaves behind: its error, the captured
variable `transaction`, and the unit of work. -/
structure FnResult where
  err : Option Error
  transaction : Option Transaction
  tx : Tx
deriving DecidableEq

/-- What `WithTx` leaves behind: its error, the captured variable, the tables
as they are outside the unit of work, and the calls made. -/
structure TxResult where
  err : Option Error
  transaction : Option Transaction
  db : DB
  calls : List Call
deriving DecidableEq

/-- The method `walletRepository.WithTx`, that is gorm's `Transaction`: begin,
run `fn`, commit if it returned nil, roll back if it returned an error or if
the commit failed. Changes of a unit of work that does not commit are not
kept. -/
def WithTx (faults : Faults) (db : DB) (fn : Tx → FnResult) : TxResult :=
  match faults.begin with
  | some msg => ⟨some (.Driver msg), none, db, [Call.Begin]⟩
  | none =>
    let r := fn ⟨db, [Call.Begin]⟩
    match r.err with
    | some e => ⟨some e, r.transaction, db, r.tx.calls ++ [Call.Rollback]⟩
    | none =>
      match faults.commit with
      | some msg => ⟨some (.Driver msg), r.transaction, db, r.tx.calls ++ [Call.Commit, Call.Rollback]⟩
      | none => ⟨none, r.transaction, r.tx.db, r.tx.calls ++ [Call.Commit]⟩

/-- The method `cacheRepository.InvalidateWallet`: deletes the key of the wallet. -/
def InvalidateWallet (fault : Option String) (cache : List (UUID × Wallet)) (walletID : UUID) :
    Option Error × List (UUID × Wallet) :=
  match fault with
  | some msg => (some (.Driver msg), cache)
  | none => (none, cache.filter (fun kv => decide (kv.1 ≠ walletID)))

/-- The method `eventProducer.PublishTransferEvent`: appends the event to the queue. -/
def PublishTransferEvent (fault : Option String) (queue : List TransferEvent) (event : TransferEvent) :
    Option Error × List TransferEvent :=
  match fault with
  | some msg => (some (.Driver msg), queue)
  | none => (none, queue ++ [event])

/-- The entry that the cache holds under the key `wallet:<id>`, if any. -/
def cacheLookup (cache : List (UUID × Wallet)) (walletID : UUID) : Option Wallet :=
  (cache.find? (fun kv => decide (kv.1 = walletID))).map (fun kv => kv.2)

/-- The method `cacheRepository.GetWallet`: the pair returned is `(nil, nil)` on
a miss, `(nil, err)` when the read or the decoding of the entry fails, and the
decoded snapshot otherwise. -/
def GetWallet (fault : Option String) (cache : List (UUID × Wallet)) (walletID : UUID) :
    Option Wallet × Option Error :=
  match fault with
  | some msg => (none, some (.Driver msg))
  | none =>
    match cacheLookup cache walletID with
    | none => (none, none)
    | some wallet => (some wallet, none)

/-- The method `cacheRepository.SetWallet`: stores the snapshot under the key
`wallet:<wallet.ID>`, replacing the entry that was there. (The entry expires
after ten minutes; an expired entry is an absent one in a later state.) -/
def SetWallet (fault : Option String) (cache : List (UUID × Wallet)) (wallet : Wallet) :
    Option Error × List (UUID × Wallet) :=
  match fault with
  | some msg => (some (.Driver msg), cache)
  | none => (none, (wallet.ID, wallet) :: cache.filter (fun kv => decide (kv.1 ≠ wallet.ID)))

/-- The method `walletRepository.GetByID`: a plain read of one row, outside any
unit of work. -/
def GetByID (fault : Option String) (db : DB) (id : UUID) : Except Error Wallet :=
  match fault with
  | some msg => .error (.Driver msg)
  | none =>
    match db.findWallet id with
    | none => .error .ErrRecordNotFound
    | some w => .ok w

/-- Failures from outside the program, one per call that `GetBalance` can make. -/
structure ReadFaults where
  cacheGet : Option String
  storeGet : Option String
  cacheSet : Option String
deriving DecidableEq

/-- What a call of `CreateWallet` meets outside the program: the failure of the
insert, the clock and the identifier that `gen_random_uuid()` gives to the row. -/
structure CreateEnv where
  fault : Option String
  now : Nat
  newID : UUID
deriving DecidableEq

/-- The method `walletRepository.Create`: inserts the row. A zero identifier is
replaced by the generated one and zero times by the clock; gorm writes the stored
row back into the struct. The store refuses a row whose identifier is taken
(primary key) or whose balance is negative (check constraint). -/
def walletRepoCreate (env : CreateEnv) (db : DB) (wallet : Wallet) : Wallet × Option Error × DB :=
  match env.fault with
  | some msg => (wallet, some (.Driver msg), db)
  | none =>
    let row : Wallet :=
      { wallet with
        ID := if wallet.ID = UUID.Nil then env.newID else wallet.ID,
        CreatedAt := if wallet.CreatedAt = 0 then env.now else wallet.CreatedAt,
        UpdatedAt := if wallet.UpdatedAt = 0 then env.now else wallet.UpdatedAt }
    if (db.findWallet row.ID).isSome then
      (wallet, some (.Driver "duplicate key value violates unique constraint (SQLSTATE 23505)"), db)
    else if row.Balance < 0 then (wallet, some .CheckViolation, db)
    else (row, none, ⟨db.wallets ++ [row], db.transactions⟩)

/-! ## The service (`internal/service/wallet_service.go`) -/

/-- The lock order of `TransferMoney` (lines 80-83): `firstID, secondID`. -/
def lockOrder (senderID receiverID : UUID) : UUID × UUID :=
  if strLess receiverID.string senderID.string then (receiverID, senderID)
  else (senderID, receiverID)

/-- The text `failed to lock wallet %s: ` of the wrapped lock error. -/
def lockText (id : UUID) : String := "failed to lock wallet " ++ id.string ++ ": "

/-- The function literal that `TransferMoney` passes to `WithTx` (lines 78-135). -/
def transferFn (env : Env) (senderID receiverID : UUID) (amount : Int) (tx : Tx) : FnResult :=
  let firstID := (lockOrder senderID receiverID).1
  let secondID := (lockOrder senderID receiverID).2
  match GetByIDWithLock env.faults.lockFirst tx firstID with
  | (.error err, tx1) => ⟨some (.Errorf (lockText firstID) err), none, tx1⟩
  | (.ok w1, tx1) =>
    match GetByIDWithLock env.faults.lockSecond tx1 secondID with
    | (.error err, tx2) => ⟨some (.Errorf (lockText secondID) err), none, tx2⟩
    | (.ok w2, tx2) =>
      let sender := if w1.ID = senderID then w1 else w2
      let receiver := if w1.ID = senderID then w2 else w1
      if sender.Balance < amount then ⟨some (.New "insufficient funds"), none, tx2⟩
      else
        let newSenderBal := wrap64 (sender.Balance - amount)
        let newReceiverBal := wrap64 (receiver.Balance + amount)
        match UpdateBalance env.faults.updateSender env.now tx2 sender.ID newSenderBal with
        | (some err, tx3) => ⟨some err, none, tx3⟩
        | (none, tx3) =>
          match UpdateBalance env.faults.updateReceiver env.now tx3 receiver.ID newReceiverBal with
          | (some err, tx4) => ⟨some err, none, tx4⟩
          | (none, tx4) =>
            let transaction : Transaction :=
              ⟨UUID.Nil, some sender.ID, some receiver.ID, amount, "TRANSFER", 0⟩
            match CreateTransaction env tx4 transaction with
            | (t, some err, tx5) => ⟨some err, some t, tx5⟩
            | (t, none, tx5) => ⟨none, some t, tx5⟩

/-- The two return values of `TransferMoney`, the state of the collaborators
after the call, and the calls it made to them. -/
structure Outcome where
  transaction : Option Transaction
  err : Option Error
  world : World
  calls : List Call
deriving DecidableEq

/-- The method `WalletService.TransferMoney`. -/
def TransferMoney (env : Env) (w : World) (senderID receiverID : UUID) (amount : Int) : Outcome :=
  if amount ≤ 0 then ⟨none, some (.New "amount must be positive"), w, []⟩
  else if senderID = receiverID then ⟨none, some (.New "cannot transfer to self"), w, []⟩
  else
    let r := WithTx env.faults w.db (transferFn env senderID receiverID amount)
    match r.err with
    | some err => ⟨none, some err, ⟨r.db, w.cache, w.queue⟩, r.calls⟩
    | none =>
      match r.transaction with
      | none => ⟨none, some (.Panic "nil pointer dereference"), ⟨r.db, w.cache, w.queue⟩, r.calls⟩
      | some transaction =>
        let cache1 := (InvalidateWallet env.faults.invalidateSender w.cache senderID).2
        let cache2 := (InvalidateWallet env.faults.invalidateReceiver cache1 receiverID).2
        let event : TransferEvent := ⟨transaction.ID, senderID, receiverID, amount⟩
        let queue := (PublishTransferEvent env.faults.publish w.queue event).2
        ⟨some transaction, none, ⟨r.db, cache2, queue⟩,
          r.calls ++ [Call.InvalidateWallet senderID, Call.InvalidateWallet receiverID,
            Call.PublishTransferEvent event]⟩

/-- Calls of `TransferMoney` with the same arguments made one after the other, as
the row locks serialise them, each in its own environment: the errors returned,
in order, and the final state. -/
def transferSeq : List Env → World → UUID → UUID → Int → List (Option Error) × World
  | [], w, _, _, _ => ([], w)
  | env :: envs, w, s, r, a =>
    ((TransferMoney env w s r a).err :: (transferSeq envs (TransferMoney env w s r a).world s r a).1,
      (transferSeq envs (TransferMoney env w s r a).world s r a).2)

/-- The two return values of `CreateWallet` or `GetBalance`, the state of the
collaborators after the call, and the calls it made to them. -/
structure WalletOutcome where
  wallet : Option Wallet
  err : Option Error
  world : World
  calls : List Call
deriving DecidableEq

/-- The method `WalletService.CreateWallet`. -/
def CreateWallet (env : CreateEnv) (w : World) (userID : UUID) : WalletOutcome :=
  let wallet : Wallet := ⟨UUID.Nil, userID, 0, 0, 0⟩
  match walletRepoCreate env w.db wallet with
  | (_, some err, db) => ⟨none, some err, ⟨db, w.cache, w.queue⟩, [Call.CreateWallet wallet]⟩
  | (stored, none, db) => ⟨some stored, none, ⟨db, w.cache, w.queue⟩, [Call.CreateWallet wallet]⟩

/-- The method `WalletService.GetBalance`. -/
def GetBalance (faults : ReadFaults) (w : World) (walletID : UUID) : WalletOutcome :=
  match GetWallet faults.cacheGet w.cache walletID with
  | (some cached, none) => ⟨some cached, none, w, [Call.GetWallet walletID]⟩
  | _ =>
    match GetByID faults.storeGet w.db walletID with
    | .error err => ⟨none, some err, w, [Call.GetWallet walletID, Call.GetByID walletID]⟩
    | .ok wallet =>
      ⟨some wallet, none, ⟨w.db, (SetWallet faults.cacheSet w.cache wallet).2, w.queue⟩,
        [Call.GetWallet walletID, Call.GetByID walletID, Call.SetWallet wallet]⟩

/-! ## The handlers (`internal/handler/handler.go`) -/

/-- The struct `CreateWalletReq`. -/
structure CreateWalletReq where
  UserID : String
deriving DecidableEq

/-- What the handlers take from the libraries that read a request:
`validator.Struct` on a `CreateWalletReq` (`none` when the struct is valid, the
text of the validation error otherwise) and `uuid.Parse` (the identifier and
the error it returns). -/
structure Codec where
  validate : CreateWalletReq → Option String
  Parse : String → UUID × Option Error

/-- The JSON document that a handler writes: an `ErrorResponse`, a wallet, a
transaction, or `null` for a nil pointer. -/
inductive Payload where
  | ErrorResponse (Code : Nat) (Message : String)
  | Wallet (w : Wallet)
  | Transaction (t : Transaction)
  | Null
deriving DecidableEq

/-- An HTTP answer: the status code and the document. -/
structure Response where
  Code : Nat
  payload : Payload
deriving DecidableEq

/-- The function `respondError`. -/
def respondError (code : Nat) (msg : String) : Response := ⟨code, .ErrorResponse code msg⟩

/-- The answer of a handler, the state of the collaborators after it and the
calls made to them. -/
structure HandlerOutcome where
  response : Response
  world : World
  calls : List Call
deriving DecidableEq

/-- The method `Handler.CreateWallet` (`POST /wallets`); `body` is the request
body as `Decode` reads it, `none` when it does not decode. -/
def Handler.CreateWallet (codec : Codec) (env : CreateEnv) (w : World)
    (body : Option CreateWalletReq) : HandlerOutcome :=
  match body with
  | none => ⟨respondError 400 "Invalid request body", w, []⟩
  | some req =>
    match codec.validate req with
    | some msg => ⟨respondError 400 msg, w, []⟩
    | none =>
      let uid := (codec.Parse req.UserID).1
      let out := DigitalWallet.CreateWallet env w uid
      match out.err, out.wallet with
      | some err, _ => ⟨respondError 500 err.message, out.world, out.calls⟩
      | none, some wallet => ⟨⟨201, .Wallet wallet⟩, out.world, out.calls⟩
      | none, none => ⟨⟨201, .Null⟩, out.world, out.calls⟩

/-- The method `Handler.GetBalance` (`GET /wallets/{id}`); `idStr` is the path
value `id`. -/
def Handler.GetBalance (codec : Codec) (faults : ReadFaults) (w : World) (idStr : String) :
    HandlerOutcome :=
  if idStr = "" then ⟨respondError 400 "Missing wallet ID", w, []⟩
  else
    match codec.Parse idStr with
    | (_, some _) => ⟨respondError 400 "Invalid wallet ID format", w, []⟩
    | (walletID, none) =>
      let out := DigitalWallet.GetBalance faults w walletID
      match out.err, out.wallet with
      | some err, _ =>
        if err.message = "record not found" then
          ⟨respondError 404 "Wallet not found", out.world, out.calls⟩
        else ⟨respondError 500 err.message, out.world, out.calls⟩
      | none, some wallet => ⟨⟨200, .Wallet wallet⟩, out.world, out.calls⟩
      | none, none => ⟨⟨200, .Null⟩, out.world, out.calls⟩

/-! ## The worker (`internal/worker/worker.go`) -/

/-- A delivery of the queue (`amqp.Delivery`): its tag on the channel and its body. -/
structure Delivery where
  DeliveryTag : Nat
  Body : List Nat
deriving DecidableEq

/-- What the worker does with the deliveries, in order: `d.Nack(multiple, requeue)`,
`d.Ack(multiple)` on the delivery with the given tag, and `processTransfer(event)`. -/
inductive WorkerAction where
  | Nack (tag : Nat) (multiple requeue : Bool)
  | Ack (tag : Nat) (multiple : Bool)
  | processTransfer (event : TransferEvent)
deriving DecidableEq

/-- The loop of `Worker.Start` over the deliveries that the channel of `Consume`
yields; `decode` is `json.Unmarshal` into a `TransferEvent`, `none` when it
returns an error. -/
def Worker.Start (decode : List Nat → Option TransferEvent) : List Delivery → List WorkerAction
  | [] => []
  | d :: msgs =>
    match decode d.Body with
    | none => .Nack d.DeliveryTag false false :: Worker.Start decode msgs
    | some event => .processTransfer event :: .Ack d.DeliveryTag false :: Worker.Start decode msgs

/-- The action acknowledges or rejects the delivery with the given tag. -/
def WorkerAction.settles (tag : Nat) : WorkerAction → Bool
  | .Nack t _ _ => decide (t = tag)
  | .Ack t _ => decide (t = tag)
  | .processTransfer _ => false

/-- The action puts a delivery back on the queue, or covers several deliveries. -/
def WorkerAction.requeuesOrMultiple : WorkerAction → Bool
  | .Nack _ multiple requeue => multiple || requeue
  | .Ack _ multiple => multiple
  | .processTransfer _ => false

/-- What the worker does with one delivery. -/
def Worker.handles (decode : List Nat → Option TransferEvent) (d : Delivery) : List WorkerAction :=
  match decode d.Body with
  | none => [.Nack d.DeliveryTag false false]
  | some event => [.processTransfer event, .Ack d.DeliveryTag false]

/-! ## Concurrent calls of `TransferMoney` and the row locks of the store -/

/-- The row locks that `TransferMoney(senderID, receiverID, _)` requests, in
order, when no request fails: none for a transfer to self, which is rejected
before the unit of work, and otherwise the two ids in the order of `lockOrder`. -/
def lockPlan (senderID receiverID : UUID) : List UUID :=
  if senderID = receiverID then []
  else [(lockOrder senderID receiverID).1, (lockOrder senderID receiverID).2]

/-- A call of `TransferMoney` in flight: its arguments, the number of locks of
its plan that it has been granted, and whether its unit of work has ended. -/
structure Flight where
  senderID : UUID
  receiverID : UUID
  held : Nat
  done : Bool
deriving DecidableEq

/-- The row locks that a call holds: those granted, until its unit of work ends. -/
def Flight.holds (plan : UUID → UUID → List UUID) (t : Flight) : List UUID :=
  if t.done then [] else (plan t.senderID t.receiverID).take t.held

/-- The row lock that a call is waiting for: the next one of its plan. -/
def Flight.waitsFor (plan : UUID → UUID → List UUID) (t : Flight) : Option UUID :=
  if t.done then none else (plan t.senderID t.receiverID)[t.held]?

/-- No call in flight holds the row lock of the id. -/
def isFree (plan : UUID → UUID → List UUID) (st : List Flight) (id : UUID) : Bool :=
  st.all (fun t => decide (id ∉ t.holds plan))

/-- What can happen to a call in flight: the lock it waits for is granted; its
unit of work ends (commit or rollback) once it holds all the locks of its plan;
or the lock request it waits on fails and its unit of work is rolled back. -/
inductive Move where
  | grant
  | finish
  | fail
deriving DecidableEq

/-- One step of the calls in flight: move `m` of the call at position `i`, `none`
when the move is not possible. A lock is granted only when it is free, and the
end of a unit of work releases its locks. -/
def step (plan : UUID → UUID → List UUID) (st : List Flight) (i : Nat) (m : Move) :
    Option (List Flight) :=
  match st[i]? with
  | none => none
  | some t =>
    if t.done then none
    else
      match m with
      | .grant =>
        match t.waitsFor plan with
        | none => none
        | some id =>
          if isFree plan st id then some (st.set i { t with held := t.held + 1 }) else none
      | .finish =>
        if t.held = (plan t.senderID t.receiverID).length then
          some (st.set i { t with done := true })
        else none
      | .fail =>
        if t.held < (plan t.senderID t.receiverID).length then
          some (st.set i { t with done := true })
        else none

/-- An execution: the steps of a schedule, one after the other. -/
def run (plan : UUID → UUID → List UUID) : List Flight → List (Nat × Move) → Option (List Flight)
  | st, [] => some st
  | st, (i, m) :: rest =>
    match step plan st i m with
    | none => none
    | some st2 => run plan st2 rest

/-- The calls as they are issued: no lock held, no unit of work ended. -/
def issue (pairs : List (UUID × UUID)) : List Flight :=
  pairs.map (fun p => ⟨p.1, p.2, 0, false⟩)

/-- Two calls each hold a row lock that the other waits for. -/
def deadlocked (plan : UUID → UUID → List UUID) (st : List Flight) : Bool :=
  st.any (fun t => st.any (fun u =>
    match t.waitsFor plan, u.waitsFor plan with
    | some x, some y => decide (x ∈ u.holds plan) && decide (y ∈ t.holds plan)
    | _, _ => false))

/-- Some call can go on without any failure: a lock can be granted or a unit of
work can end. -/
def canProceed (plan : UUID → UUID → List UUID) (st : List Flight) : Bool :=
  (List.range st.length).any (fun i =>
    (step plan st i .grant).isSome || (step plan st i .finish).isSome)

/-- The lock order of a program that would lock the sender's row first. -/
def senderFirstPlan (senderID receiverID : UUID) : List UUID :=
  if senderID = receiverID then [] else [senderID, receiverID]

/-- The progress of the calls in flight: a call counts 3 once its unit of work
has ended and the number of locks it holds before. -/
def progress (st : List Flight) : Nat :=
  (st.map (fun t => if t.done then 3 else t.held)).sum

/-- The calls in flight all follow the plan `P` and hold no more locks than it has. -/
def followsPlan (P : List UUID) (st : List Flight) : Prop :=
  ∀ t ∈ st, lockPlan t.senderID t.receiverID = P ∧ t.held ≤ P.length

/-! ## Auxiliary definitions -/

/-- Lines 107-134 of `TransferMoney`, once the sender and the receiver rows are known. -/
def settle (env : Env) (sender receiver : Wallet) (amount : Int) (tx2 : Tx) : FnResult :=
  if sender.Balance < amount then ⟨some (.New "insufficient funds"), none, tx2⟩
  else
    match UpdateBalance env.faults.updateSender env.now tx2 sender.ID
        (wrap64 (sender.Balance - amount)) with
    | (some err, tx3) => ⟨some err, none, tx3⟩
    | (none, tx3) =>
      match UpdateBalance env.faults.updateReceiver env.now tx3 receiver.ID
          (wrap64 (receiver.Balance + amount)) with
      | (some err, tx4) => ⟨some err, none, tx4⟩
      | (none, tx4) =>
        match CreateTransaction env tx4
            ⟨UUID.Nil, some sender.ID, some receiver.ID, amount, "TRANSFER", 0⟩ with
        | (t, some err, tx5) => ⟨some err, some t, tx5⟩
        | (t, none, tx5) => ⟨none, some t, tx5⟩

/-- The row that a successful transfer appends to `transactions`. -/
def transferRow (env : Env) (s r : UUID) (a : Int) : Transaction :=
  ⟨env.newID, some s, some r, a, "TRANSFER", env.now⟩

/-- The wallets table after the two balance updates of a transfer. -/
def settledWallets (env : Env) (ws wr : Wallet) (a : Int) (wallets : List Wallet) : List Wallet :=
  (wallets.map (setBalance env.now ws.ID (wrap64 (ws.Balance - a)))).map
    (setBalance env.now wr.ID (wrap64 (wr.Balance + a)))

/-- The calls of a transfer that commits, up to the commit. -/
def commitCalls (s r : UUID) (ws wr : Wallet) (a : Int) : List Call :=
  [Call.Begin, Call.GetByIDWithLock (lockOrder s r).1, Call.GetByIDWithLock (lockOrder s r).2,
    Call.UpdateBalance s (wrap64 (ws.Balance - a)), Call.UpdateBalance r (wrap64 (wr.Balance + a)),
    Call.CreateTransaction ⟨UUID.Nil, some s, some r, a, "TRANSFER", 0⟩, Call.Commit]

/-- The state of the cache after the two best-effort invalidations. -/
def cacheAfter (env : Env) (cache : List (UUID × Wallet)) (s r : UUID) : List (UUID × Wallet) :=
  (InvalidateWallet env.faults.invalidateReceiver
    (InvalidateWallet env.faults.invalidateSender cache s).2 r).2

/-- The event that `TransferMoney` publishes. -/
def transferEvent (env : Env) (s r : UUID) (a : Int) : TransferEvent := ⟨env.newID, s, r, a⟩

/-- The value of a lower-case hexadecimal digit. -/
def hexValue (c : Char) : Option Nat :=
  if c ∈ hextable then some (hextable.indexOf c) else none

/-- The bytes that a sequence of hexadecimal digits spells, two digits per byte. -/
def hexDecode : List Char → Option (List (Fin 256))
  | [] => some []
  | [_] => none
  | c1 :: c2 :: cs =>
    match hexValue c1, hexValue c2, hexDecode cs with
    | some h, some l, some bs => some (Fin.ofNat (16 * h + l) :: bs)
    | _, _, _ => none

/-- A reader of the canonical form of an identifier: 36 characters that, the
dashes apart, spell 16 bytes. -/
def parseCanonical (s : String) : UUID × Option Error :=
  match hexDecode (s.data.filter (fun c => decide (c ≠ '-'))) with
  | some bytes =>
    if h : bytes.length = 16 ∧ s.data.length = 36 then (⟨bytes, h.1⟩, none)
    else (UUID.Nil, some (.New "invalid UUID length"))
  | none => (UUID.Nil, some (.New "invalid UUID format"))

/-- A codec that accepts a `CreateWalletReq` whose `UserID` is in canonical form. -/
def canonicalCodec : Codec :=
  ⟨fun req =>
      if req.UserID = "" then some "UserID failed on the required tag"
      else if (parseCanonical req.UserID).2.isSome then some "UserID failed on the uuid tag"
      else none,
    parseCanonical⟩

/-- The row that `CreateWallet` stores for an owner. -/
def createdRow (env : CreateEnv) (userID : UUID) : Wallet :=
  ⟨env.newID, userID, 0, env.now, env.now⟩

/-! ## Concrete states used as witnesses -/

/-- Wallet A of the concurrency test: balance 1000. -/
def walletA : Wallet := ⟨UUID.ofByte 1, UUID.ofByte 11, 1000, 0, 0⟩

/-- Wallet B of the concurrency test: balance 0. -/
def walletB : Wallet := ⟨UUID.ofByte 2, UUID.ofByte 12, 0, 0, 0⟩

/-- A store holding wallets A and B, an empty log, an empty cache and an empty queue. -/
def world0 : World := ⟨⟨[walletA, walletB], []⟩, [], []⟩

/-- An environment in which every collaborator works. -/
def envOK : Env := ⟨Faults.none, 5, UUID.ofByte 99⟩

/-- An environment in which the log append fails and everything else works. -/
def envCreateFails : Env :=
  ⟨{ Faults.none with create := some "connection reset" }, 5, UUID.ofByte 99⟩

/-- A store whose receiver holds the greatest `int64` balance. -/
def worldFull : World :=
  ⟨⟨[walletA, ⟨UUID.ofByte 2, UUID.ofByte 12, MaxInt64, 0, 0⟩], []⟩, [], []⟩

/-- Two wallets that were just created: both balances are 0. -/
def worldZero : World :=
  ⟨⟨[⟨UUID.ofByte 1, UUID.ofByte 11, 0, 0, 0⟩, ⟨UUID.ofByte 2, UUID.ofByte 12, 0, 0, 0⟩], []⟩,
    [], []⟩

/-- An environment in which the store works and both cache invalidations and
the publish fail. -/
def envPostFails : Env :=
  envOK.withPost (some "redis: connection refused") (some "redis: connection refused")
    (some "amqp: channel closed")

/-- The store of `world0` with the cache holding the snapshots of A and B. -/
def worldCached : World := ⟨world0.db, [(walletA.ID, walletA), (walletB.ID, walletB)], []⟩

/-- Every call of `GetBalance` is answered. -/
def readOK : ReadFaults := ⟨none, none, none⟩

/-- The cache cannot be written; the reads are answered. -/
def readSetFails : ReadFaults := ⟨none, none, some "redis: connection refused"⟩

/-- An environment in which the insert of a wallet works. -/
def createOK : CreateEnv := ⟨none, 7, UUID.ofByte 50⟩

/-- A decoder that refuses the empty body and reads any other body as one fixed event. -/
def decodeNonEmpty (body : List Nat) : Option TransferEvent :=
  if body = [] then none else some ⟨UUID.ofByte 99, UUID.ofByte 1, UUID.ofByte 2, 1⟩

/-! ## Lemmas -/

theorem findWallet_id {db : DB} {id : UUID} {w : Wallet} (h : db.findWallet id = some w) :
    w.ID = id := by
  have := List.find?_some h
  simpa using this

theorem lockOrder_cases (s r : UUID) :
    (lockOrder s r = (s, r)) ∨ (lockOrder s r = (r, s)) := by
  unfold lockOrder
  split
  · exact Or.inr rfl
  · exact Or.inl rfl

/-- Once both rows are locked, the function passed to `WithTx` is `settle` on the
sender row and the receiver row, whichever was locked first. -/
theorem transferFn_locked (env : Env) (s r : UUID) (a : Int) (tx : Tx) (ws wr : Wallet)
    (hne : s ≠ r) (hs : tx.db.findWallet s = some ws) (hr : tx.db.findWallet r = some wr)
    (h1 : env.faults.lockFirst = none) (h2 : env.faults.lockSecond = none) :
    transferFn env s r a tx = settle env ws wr a
      ⟨tx.db, tx.calls ++ [Call.GetByIDWithLock (lockOrder s r).1,
        Call.GetByIDWithLock (lockOrder s r).2]⟩ := by
  have hsid := findWallet_id hs
  have hrid := findWallet_id hr
  have hrs : ¬ wr.ID = s := by rw [hrid]; exact fun h => hne h.symm
  rcases lockOrder_cases s r with h | h
  · simp [transferFn, h, GetByIDWithLock, h1, h2, hs, hr, hsid, settle]
  · simp [transferFn, h, GetByIDWithLock, h1, h2, hs, hr, hrs, settle]

/-- Without both locks the function passed to `WithTx` fails before any write. -/
theorem transferFn_ok_locked (env : Env) (s r : UUID) (a : Int) (tx : Tx)
    (h : (transferFn env s r a tx).err = none) :
    env.faults.lockFirst = none ∧ env.faults.lockSecond = none ∧
      (∃ w1, tx.db.findWallet (lockOrder s r).1 = some w1) ∧
      (∃ w2, tx.db.findWallet (lockOrder s r).2 = some w2) := by
  unfold transferFn GetByIDWithLock at h
  cases h1 : env.faults.lockFirst with
  | some m => simp [h1] at h
  | none =>
    cases hf : tx.db.findWallet (lockOrder s r).1 with
    | none => simp [h1, hf] at h
    | some w1 =>
      cases h2 : env.faults.lockSecond with
      | some m => simp [h1, hf, h2] at h
      | none =>
        cases hg : tx.db.findWallet (lockOrder s r).2 with
        | none => simp [h1, hf, h2, hg] at h
        | some w2 => exact ⟨rfl, rfl, ⟨w1, rfl⟩, ⟨w2, rfl⟩⟩

theorem setBalance_id (now : Nat) (id : UUID) (nb : Int) (w : Wallet) :
    (setBalance now id nb w).ID = w.ID := by
  unfold setBalance; split <;> rfl

theorem find_map_setBalance (now : Nat) (id id2 : UUID) (nb : Int) (ws : List Wallet) :
    (ws.map (setBalance now id nb)).find? (fun w => decide (w.ID = id2)) =
      (ws.find? (fun w => decide (w.ID = id2))).map (setBalance now id nb) := by
  induction ws with
  | nil => rfl
  | cons x xs ih =>
    by_cases hx : x.ID = id2
    · simp [List.find?, setBalance_id, hx]
    · simp [List.find?, setBalance_id, hx, ih]

theorem findWallet_setBalance (now : Nat) (id id2 : UUID) (nb : Int) (ws : List Wallet)
    (ts : List Transaction) :
    (DB.mk (ws.map (setBalance now id nb)) ts).findWallet id2 =
      ((DB.mk ws ts).findWallet id2).map (setBalance now id nb) := by
  unfold DB.findWallet
  exact find_map_setBalance now id id2 nb ws

theorem wrap64_of_isInt64 {x : Int} (h : IsInt64 x) : wrap64 x = x := by
  unfold IsInt64 MinInt64 MaxInt64 at h
  unfold wrap64
  omega

theorem wrap64_add_nonneg {b a : Int} (hb : IsInt64 b) (ha : IsInt64 a) (hpos : 0 < a)
    (h : 0 ≤ wrap64 (b + a)) : wrap64 (b + a) = b + a := by
  unfold IsInt64 MinInt64 MaxInt64 at hb ha
  unfold wrap64 at *
  omega

theorem wrap64_sub {b a : Int} (hb : IsInt64 b) (hpos : 0 < a) (h : a ≤ b) :
    wrap64 (b - a) = b - a := by
  unfold IsInt64 MinInt64 MaxInt64 at hb
  unfold wrap64
  omega

theorem UpdateBalance_cases (fault : Option String) (now : Nat) (tx : Tx) (id : UUID) (nb : Int) :
    (∃ e, UpdateBalance fault now tx id nb =
        (some e, ⟨tx.db, tx.calls ++ [Call.UpdateBalance id nb]⟩) ∧
      ((∃ m, fault = some m ∧ e = .Driver m) ∨
        (fault = none ∧ e = .CheckViolation ∧ nb < 0 ∧ (tx.db.findWallet id).isSome))) ∨
    (fault = none ∧ ¬ (nb < 0 ∧ (tx.db.findWallet id).isSome) ∧
      UpdateBalance fault now tx id nb =
        (none, ⟨⟨tx.db.wallets.map (setBalance now id nb), tx.db.transactions⟩,
          tx.calls ++ [Call.UpdateBalance id nb]⟩)) := by
  unfold UpdateBalance
  cases fault with
  | some m => exact Or.inl ⟨_, rfl, Or.inl ⟨m, rfl, rfl⟩⟩
  | none =>
    by_cases hc : nb < 0 ∧ (tx.db.findWallet id).isSome
    · exact Or.inl ⟨_, by simp only [if_pos hc], Or.inr ⟨rfl, rfl, hc.1, hc.2⟩⟩
    · exact Or.inr ⟨rfl, hc, by simp only [if_neg hc]⟩

theorem CreateTransaction_cases (env : Env) (tx : Tx) (t : Transaction) :
    (∃ m, env.faults.create = some m ∧ CreateTransaction env tx t =
        (t, some (.Driver m), ⟨tx.db, tx.calls ++ [Call.CreateTransaction t]⟩)) ∨
    (env.faults.create = none ∧ CreateTransaction env tx t =
        ({ t with ID := env.newID, CreatedAt := env.now }, none,
          ⟨⟨tx.db.wallets, tx.db.transactions ++ [{ t with ID := env.newID, CreatedAt := env.now }]⟩,
            tx.calls ++ [Call.CreateTransaction t]⟩)) := by
  unfold CreateTransaction
  cases hc : env.faults.create with
  | some m => exact Or.inl ⟨m, rfl, rfl⟩
  | none => exact Or.inr ⟨rfl, rfl⟩

/-- When `settle` returns nil, the funds sufficed, both new balances passed the
check constraint, and the unit of work holds the two updates and the new row. -/
theorem settle_ok (env : Env) (ws wr : Wallet) (a : Int) (tx : Tx)
    (hs : tx.db.findWallet ws.ID = some ws) (hr : tx.db.findWallet wr.ID = some wr)
    (h : (settle env ws wr a tx).err = none) :
    a ≤ ws.Balance ∧ 0 ≤ wrap64 (ws.Balance - a) ∧ 0 ≤ wrap64 (wr.Balance + a) ∧
      env.faults.updateSender = none ∧ env.faults.updateReceiver = none ∧
      env.faults.create = none ∧
      settle env ws wr a tx = ⟨none, some (transferRow env ws.ID wr.ID a),
        ⟨⟨settledWallets env ws wr a tx.db.wallets,
            tx.db.transactions ++ [transferRow env ws.ID wr.ID a]⟩,
          tx.calls ++ [Call.UpdateBalance ws.ID (wrap64 (ws.Balance - a)),
            Call.UpdateBalance wr.ID (wrap64 (wr.Balance + a)),
            Call.CreateTransaction ⟨UUID.Nil, some ws.ID, some wr.ID, a, "TRANSFER", 0⟩]⟩⟩ := by
  have hr2 : (DB.mk (tx.db.wallets.map (setBalance env.now ws.ID (wrap64 (ws.Balance - a))))
      tx.db.transactions).findWallet wr.ID =
        some (setBalance env.now ws.ID (wrap64 (ws.Balance - a)) wr) := by
    rw [findWallet_setBalance]
    show Option.map _ (tx.db.findWallet wr.ID) = _
    rw [hr]; rfl
  unfold settle at h ⊢
  by_cases hlt : ws.Balance < a
  · simp [hlt] at h
  · rw [if_neg hlt] at h ⊢
    rcases UpdateBalance_cases env.faults.updateSender env.now tx ws.ID
      (wrap64 (ws.Balance - a)) with ⟨e, he, _⟩ | ⟨hf1, hn1, he1⟩
    · rw [he] at h; simp at h
    · rw [he1] at h ⊢
      simp only at h ⊢
      rcases UpdateBalance_cases env.faults.updateReceiver env.now
        ⟨⟨tx.db.wallets.map (setBalance env.now ws.ID (wrap64 (ws.Balance - a))),
          tx.db.transactions⟩, tx.calls ++ [Call.UpdateBalance ws.ID (wrap64 (ws.Balance - a))]⟩
        wr.ID (wrap64 (wr.Balance + a)) with ⟨e, he, _⟩ | ⟨hf2, hn2, he2⟩
      · rw [he] at h; simp at h
      · rw [he2] at h ⊢
        simp only at h ⊢
        rcases CreateTransaction_cases env
          ⟨⟨(tx.db.wallets.map (setBalance env.now ws.ID (wrap64 (ws.Balance - a)))).map
              (setBalance env.now wr.ID (wrap64 (wr.Balance + a))), tx.db.transactions⟩,
            tx.calls ++ [Call.UpdateBalance ws.ID (wrap64 (ws.Balance - a))] ++
              [Call.UpdateBalance wr.ID (wrap64 (wr.Balance + a))]⟩
          ⟨UUID.Nil, some ws.ID, some wr.ID, a, "TRANSFER", 0⟩ with ⟨m, _, he⟩ | ⟨hf3, he3⟩
        · rw [he] at h; simp at h
        · rw [he3]
          simp only [hs, hr2, Option.isSome_some, and_true, not_lt] at hn1 hn2
          refine ⟨by omega, hn1, hn2, hf1, hf2, hf3, ?_⟩
          simp [transferRow, settledWallets]

/-- A unit of work of `TransferMoney` that ends without error: what held before
it and what it leaves. -/
theorem WithTx_transferFn_ok (env : Env) (db : DB) (s r : UUID) (a : Int) (hne : s ≠ r)
    (h : (WithTx env.faults db (transferFn env s r a)).err = none) :
    env.faults.storeOK ∧ ∃ ws wr, db.findWallet s = some ws ∧ db.findWallet r = some wr ∧
      a ≤ ws.Balance ∧ 0 ≤ wrap64 (ws.Balance - a) ∧ 0 ≤ wrap64 (wr.Balance + a) ∧
      WithTx env.faults db (transferFn env s r a) =
        ⟨none, some (transferRow env s r a),
          ⟨settledWallets env ws wr a db.wallets, db.transactions ++ [transferRow env s r a]⟩,
          commitCalls s r ws wr a⟩ := by
  unfold WithTx at h ⊢
  cases hb : env.faults.begin with
  | some m => simp [hb] at h
  | none =>
    simp only [hb] at h ⊢
    cases he : (transferFn env s r a ⟨db, [Call.Begin]⟩).err with
    | some e => simp [he] at h
    | none =>
      simp only [he] at h ⊢
      cases hc : env.faults.commit with
      | some m => simp [hc] at h
      | none =>
        simp only [hc]
        obtain ⟨h1, h2, ⟨w1, hw1⟩, ⟨w2, hw2⟩⟩ := transferFn_ok_locked env s r a _ he
        have hex : ∃ ws wr, db.findWallet s = some ws ∧ db.findWallet r = some wr := by
          rcases lockOrder_cases s r with hl | hl
          · rw [hl] at hw1 hw2; exact ⟨w1, w2, hw1, hw2⟩
          · rw [hl] at hw1 hw2; exact ⟨w2, w1, hw2, hw1⟩
        obtain ⟨ws, wr, hs, hr⟩ := hex
        have hsid := findWallet_id hs
        have hrid := findWallet_id hr
        have hloc := transferFn_locked env s r a ⟨db, [Call.Begin]⟩ ws wr hne hs hr h1 h2
        rw [hloc] at he
        have hs2 : (Tx.mk db ([Call.Begin] ++ [Call.GetByIDWithLock (lockOrder s r).1,
            Call.GetByIDWithLock (lockOrder s r).2])).db.findWallet ws.ID = some ws := by
          rw [hsid]; exact hs
        have hr2 : (Tx.mk db ([Call.Begin] ++ [Call.GetByIDWithLock (lockOrder s r).1,
            Call.GetByIDWithLock (lockOrder s r).2])).db.findWallet wr.ID = some wr := by
          rw [hrid]; exact hr
        obtain ⟨hle, hn1, hn2, hf1, hf2, hf3, heq⟩ := settle_ok env ws wr a _ hs2 hr2 he
        refine ⟨⟨hb, h1, h2, hf1, hf2, hf3, hc⟩, ws, wr, hs, hr, hle, hn1, hn2, ?_⟩
        rw [hloc, heq, hsid, hrid]
        simp [commitCalls]

/-- A call of `TransferMoney` that returns a nil error: what held before it and
what it returns and leaves. -/
theorem TransferMoney_ok (env : Env) (w : World) (s r : UUID) (a : Int)
    (h : (TransferMoney env w s r a).err = none) :
    0 < a ∧ s ≠ r ∧ env.faults.storeOK ∧
      ∃ ws wr, w.db.findWallet s = some ws ∧ w.db.findWallet r = some wr ∧
      a ≤ ws.Balance ∧ 0 ≤ wrap64 (ws.Balance - a) ∧ 0 ≤ wrap64 (wr.Balance + a) ∧
      TransferMoney env w s r a =
        ⟨some (transferRow env s r a), none,
          ⟨⟨settledWallets env ws wr a w.db.wallets,
              w.db.transactions ++ [transferRow env s r a]⟩,
            cacheAfter env w.cache s r,
            (PublishTransferEvent env.faults.publish w.queue (transferEvent env s r a)).2⟩,
          commitCalls s r ws wr a ++ [Call.InvalidateWallet s, Call.InvalidateWallet r,
            Call.PublishTransferEvent (transferEvent env s r a)]⟩ := by
  unfold TransferMoney at h ⊢
  by_cases ha : a ≤ 0
  · simp [ha] at h
  · by_cases hsr : s = r
    · simp [ha, hsr] at h
    · simp only [if_neg ha, if_neg hsr] at h ⊢
      cases he : (WithTx env.faults w.db (transferFn env s r a)).err with
      | some e => simp [he] at h
      | none =>
        obtain ⟨hok, ws, wr, hs, hr, hle, hn1, hn2, heq⟩ :=
          WithTx_transferFn_ok env w.db s r a hsr he
        refine ⟨by omega, hsr, hok, ws, wr, hs, hr, hle, hn1, hn2, ?_⟩
        rw [heq]
        rfl

/-- A call of `TransferMoney` that returns an error leaves the store, the cache
and the queue as they were. -/
theorem TransferMoney_err_world (env : Env) (w : World) (s r : UUID) (a : Int) (e : Error)
    (h : (TransferMoney env w s r a).err = some e) :
    (TransferMoney env w s r a).world = w ∧ (TransferMoney env w s r a).transaction = none := by
  unfold TransferMoney at h ⊢
  by_cases ha : a ≤ 0
  · simp [ha]
  · by_cases hsr : s = r
    · simp [ha, hsr]
    · simp only [if_neg ha, if_neg hsr] at h ⊢
      have hdb : (WithTx env.faults w.db (transferFn env s r a)).err ≠ none →
          (WithTx env.faults w.db (transferFn env s r a)).db = w.db := by
        unfold WithTx
        cases env.faults.begin with
        | some m => simp
        | none =>
          simp only
          cases (transferFn env s r a ⟨w.db, [Call.Begin]⟩).err with
          | some e => simp
          | none =>
            simp only
            cases env.faults.commit with
            | some m => simp
            | none => simp
      cases he : (WithTx env.faults w.db (transferFn env s r a)).err with
      | some e2 =>
        have := hdb (by rw [he]; simp)
        simp [this]
      | none =>
        obtain ⟨_, ws, wr, _, _, _, _, _, heq⟩ := WithTx_transferFn_ok env w.db s r a hsr he
        rw [heq] at h
        simp at h

/-- The row of any wallet after the two balance updates of a transfer. -/
theorem findWallet_settled (env : Env) (ws wr : Wallet) (a : Int) (db : DB)
    (ts : List Transaction) (id : UUID) :
    (DB.mk (settledWallets env ws wr a db.wallets) ts).findWallet id =
      ((db.findWallet id).map (setBalance env.now ws.ID (wrap64 (ws.Balance - a)))).map
        (setBalance env.now wr.ID (wrap64 (wr.Balance + a))) := by
  unfold settledWallets
  rw [findWallet_setBalance, findWallet_setBalance]
  rfl

theorem balanceOf_settled_sender (env : Env) (ws wr : Wallet) (a : Int) (db : DB)
    (ts : List Transaction) (hne : ws.ID ≠ wr.ID) (hs : db.findWallet ws.ID = some ws) :
    (DB.mk (settledWallets env ws wr a db.wallets) ts).balanceOf ws.ID =
      some (wrap64 (ws.Balance - a)) := by
  unfold DB.balanceOf
  rw [findWallet_settled, hs]
  simp [setBalance, hne]

theorem balanceOf_settled_receiver (env : Env) (ws wr : Wallet) (a : Int) (db : DB)
    (ts : List Transaction) (hne : ws.ID ≠ wr.ID) (hr : db.findWallet wr.ID = some wr) :
    (DB.mk (settledWallets env ws wr a db.wallets) ts).balanceOf wr.ID =
      some (wrap64 (wr.Balance + a)) := by
  unfold DB.balanceOf
  rw [findWallet_settled, hr]
  simp [setBalance, hne.symm]

theorem setBalance_nonneg (now : Nat) (id : UUID) (nb : Int) (w : Wallet) (hnb : 0 ≤ nb)
    (hw : 0 ≤ w.Balance) : 0 ≤ (setBalance now id nb w).Balance := by
  unfold setBalance
  split
  · exact hnb
  · exact hw

theorem findWallet_mem {db : DB} {id : UUID} {w : Wallet} (h : db.findWallet id = some w) :
    w ∈ db.wallets := List.mem_of_find?_eq_some h

/-- The balances of the two wallets before and after a call of `TransferMoney`
that returns a nil error, with the `int64` arithmetic shown to be exact. -/
theorem TransferMoney_ok_balances (env : Env) (w : World) (s r : UUID) (a : Int)
    (ha : IsInt64 a) (hw : ∀ x ∈ w.db.wallets, IsInt64 x.Balance)
    (h : (TransferMoney env w s r a).err = none) :
    ∃ sb rb, w.db.balanceOf s = some sb ∧ w.db.balanceOf r = some rb ∧ a ≤ sb ∧
      (TransferMoney env w s r a).world.db.balanceOf s = some (sb - a) ∧
      (TransferMoney env w s r a).world.db.balanceOf r = some (rb + a) := by
  obtain ⟨hpos, hne, _, ws, wr, hs, hr, hle, _, hn2, heq⟩ := TransferMoney_ok env w s r a h
  have hsid := findWallet_id hs
  have hrid := findWallet_id hr
  have hne2 : ws.ID ≠ wr.ID := by rw [hsid, hrid]; exact hne
  have h1 := balanceOf_settled_sender env ws wr a w.db
    (w.db.transactions ++ [transferRow env s r a]) hne2 (by rw [hsid]; exact hs)
  have h2 := balanceOf_settled_receiver env ws wr a w.db
    (w.db.transactions ++ [transferRow env s r a]) hne2 (by rw [hrid]; exact hr)
  rw [wrap64_sub (hw ws (findWallet_mem hs)) hpos hle, hsid] at h1
  rw [wrap64_add_nonneg (hw wr (findWallet_mem hr)) ha hpos hn2, hrid] at h2
  refine ⟨ws.Balance, wr.Balance, by simp [DB.balanceOf, hs], by simp [DB.balanceOf, hr], hle, ?_, ?_⟩
  · rw [heq]; exact h1
  · rw [heq]; exact h2

/-- The errors that `settle` can return. -/
theorem settle_err (env : Env) (ws wr : Wallet) (a : Int) (tx : Tx) (e : Error)
    (h : (settle env ws wr a tx).err = some e) :
    (ws.Balance < a ∧ e = .New "insufficient funds") ∨ (∃ m, e = .Driver m) ∨
      e = .CheckViolation := by
  unfold settle at h
  by_cases hlt : ws.Balance < a
  · rw [if_pos hlt] at h
    simp only [Option.some.injEq] at h
    exact Or.inl ⟨hlt, h.symm⟩
  · rw [if_neg hlt] at h
    have hcases : ∀ {f : Option String} {e2 : Error} {nb : Int} {t : Tx} {id : UUID},
        ((∃ m, f = some m ∧ e2 = .Driver m) ∨
          (f = none ∧ e2 = .CheckViolation ∧ nb < 0 ∧ (t.db.findWallet id).isSome)) →
        ((∃ m, e2 = .Driver m) ∨ e2 = .CheckViolation) := by
      intro f e2 nb t id hc
      rcases hc with ⟨m, _, hm⟩ | ⟨_, hm, _⟩
      · exact Or.inl ⟨m, hm⟩
      · exact Or.inr hm
    rcases UpdateBalance_cases env.faults.updateSender env.now tx ws.ID
      (wrap64 (ws.Balance - a)) with ⟨e1, he, hc⟩ | ⟨_, _, he1⟩
    · rw [he] at h
      simp only [Option.some.injEq] at h
      subst h
      exact Or.inr (hcases hc)
    · rw [he1] at h
      simp only at h
      rcases UpdateBalance_cases env.faults.updateReceiver env.now
        ⟨⟨tx.db.wallets.map (setBalance env.now ws.ID (wrap64 (ws.Balance - a))),
          tx.db.transactions⟩, tx.calls ++ [Call.UpdateBalance ws.ID (wrap64 (ws.Balance - a))]⟩
        wr.ID (wrap64 (wr.Balance + a)) with ⟨e2, he, hc⟩ | ⟨_, _, he2⟩
      · rw [he] at h
        simp only [Option.some.injEq] at h
        subst h
        exact Or.inr (hcases hc)
      · rw [he2] at h
        simp only at h
        rcases CreateTransaction_cases env
          ⟨⟨(tx.db.wallets.map (setBalance env.now ws.ID (wrap64 (ws.Balance - a)))).map
              (setBalance env.now wr.ID (wrap64 (wr.Balance + a))), tx.db.transactions⟩,
            tx.calls ++ [Call.UpdateBalance ws.ID (wrap64 (ws.Balance - a))] ++
              [Call.UpdateBalance wr.ID (wrap64 (wr.Balance + a))]⟩
          ⟨UUID.Nil, some ws.ID, some wr.ID, a, "TRANSFER", 0⟩ with ⟨m, _, he⟩ | ⟨_, he3⟩
        · rw [he] at h
          simp only [Option.some.injEq] at h
          exact Or.inr (Or.inl ⟨m, h.symm⟩)
        · rw [he3] at h
          simp at h

/-- The errors that the function passed to `WithTx` can return, with their causes. -/
theorem transferFn_err (env : Env) (s r : UUID) (a : Int) (tx : Tx) (e : Error) (hne : s ≠ r)
    (h : (transferFn env s r a tx).err = some e) :
    (∃ ws, tx.db.findWallet s = some ws ∧ ws.Balance < a ∧ e = .New "insufficient funds") ∨
      (∃ id, (id = s ∨ id = r) ∧ tx.db.findWallet id = none ∧
        e = .Errorf (lockText id) .ErrRecordNotFound) ∨
      (∃ id m, (id = s ∨ id = r) ∧ e = .Errorf (lockText id) (.Driver m)) ∨
      (∃ m, e = .Driver m) ∨ e = .CheckViolation := by
  have hfg : ((lockOrder s r).1 = s ∨ (lockOrder s r).1 = r) ∧
      ((lockOrder s r).2 = s ∨ (lockOrder s r).2 = r) := by
    rcases lockOrder_cases s r with hl | hl <;> simp [hl]
  cases h1 : env.faults.lockFirst with
  | some m =>
    have he : (transferFn env s r a tx).err =
        some (.Errorf (lockText (lockOrder s r).1) (.Driver m)) := by
      simp [transferFn, GetByIDWithLock, h1]
    rw [he, Option.some.injEq] at h
    exact Or.inr (Or.inr (Or.inl ⟨_, m, hfg.1, h.symm⟩))
  | none =>
    cases hf : tx.db.findWallet (lockOrder s r).1 with
    | none =>
      have he : (transferFn env s r a tx).err =
          some (.Errorf (lockText (lockOrder s r).1) .ErrRecordNotFound) := by
        simp [transferFn, GetByIDWithLock, h1, hf]
      rw [he, Option.some.injEq] at h
      exact Or.inr (Or.inl ⟨_, hfg.1, hf, h.symm⟩)
    | some w1 =>
      cases h2 : env.faults.lockSecond with
      | some m =>
        have he : (transferFn env s r a tx).err =
            some (.Errorf (lockText (lockOrder s r).2) (.Driver m)) := by
          simp [transferFn, GetByIDWithLock, h1, hf, h2]
        rw [he, Option.some.injEq] at h
        exact Or.inr (Or.inr (Or.inl ⟨_, m, hfg.2, h.symm⟩))
      | none =>
        cases hg : tx.db.findWallet (lockOrder s r).2 with
        | none =>
          have he : (transferFn env s r a tx).err =
              some (.Errorf (lockText (lockOrder s r).2) .ErrRecordNotFound) := by
            simp [transferFn, GetByIDWithLock, h1, hf, h2, hg]
          rw [he, Option.some.injEq] at h
          exact Or.inr (Or.inl ⟨_, hfg.2, hg, h.symm⟩)
        | some w2 =>
          have hex : ∃ ws wr, tx.db.findWallet s = some ws ∧ tx.db.findWallet r = some wr := by
            rcases lockOrder_cases s r with hl | hl
            · rw [hl] at hf hg; exact ⟨w1, w2, hf, hg⟩
            · rw [hl] at hf hg; exact ⟨w2, w1, hg, hf⟩
          obtain ⟨ws, wr, hs, hr⟩ := hex
          rw [transferFn_locked env s r a tx ws wr hne hs hr h1 h2] at h
          rcases settle_err env ws wr a _ e h with ⟨hlt, he⟩ | hd | hc
          · exact Or.inl ⟨ws, hs, hlt, he⟩
          · exact Or.inr (Or.inr (Or.inr (Or.inl hd)))
          · exact Or.inr (Or.inr (Or.inr (Or.inr hc)))

/-- An error of `WithTx` is the driver's at begin or commit, or the error of `fn`. -/
theorem WithTx_err (faults : Faults) (db : DB) (fn : Tx → FnResult) (e : Error)
    (h : (WithTx faults db fn).err = some e) :
    (∃ m, e = .Driver m) ∨ (fn ⟨db, [Call.Begin]⟩).err = some e := by
  unfold WithTx at h
  cases hb : faults.begin with
  | some m =>
    simp only [hb, Option.some.injEq] at h
    exact Or.inl ⟨m, h.symm⟩
  | none =>
    simp only [hb] at h
    cases he : (fn ⟨db, [Call.Begin]⟩).err with
    | some e2 =>
      simp only [he, Option.some.injEq] at h
      exact Or.inr (by rw [h])
    | none =>
      simp only [he] at h
      cases hc : faults.commit with
      | some m =>
        simp only [hc, Option.some.injEq] at h
        exact Or.inl ⟨m, h.symm⟩
      | none => simp [hc] at h

theorem char_toNat_inj {a b : Char} (h : a.toNat = b.toNat) : a = b := by
  exact Char.ext (UInt32.ext h)

theorem hexDigit_inj : ∀ n m : Fin 16, hexDigit n.val = hexDigit m.val → n = m := by decide

theorem hexDigit_ne_dash (n : Nat) : hexDigit n ≠ '-' := by
  by_cases h : n < 16
  · have : ∀ k : Fin 16, hexDigit k.val ≠ '-' := by decide
    exact this ⟨n, h⟩
  · unfold hexDigit
    rw [List.getD_eq_default _ _ (by simp [hextable]; omega)]
    decide

theorem hexEncode_inj : ∀ u v : List (Fin 256), hexEncode u = hexEncode v → u = v := by
  intro u
  induction u with
  | nil => intro v h; cases v with
    | nil => rfl
    | cons c cs => simp [hexEncode] at h
  | cons b bs ih =>
    intro v h
    cases v with
    | nil => simp [hexEncode] at h
    | cons c cs =>
      simp only [hexEncode, List.cons.injEq] at h
      obtain ⟨h1, h2, h3⟩ := h
      have e1 := hexDigit_inj ⟨b.val / 16, by omega⟩ ⟨c.val / 16, by omega⟩ h1
      have e2 := hexDigit_inj ⟨b.val % 16, by omega⟩ ⟨c.val % 16, by omega⟩ h2
      simp only [Fin.mk.injEq] at e1 e2
      have : b = c := Fin.ext (by omega)
      rw [this, ih cs h3]

theorem hexEncode_append (u v : List (Fin 256)) :
    hexEncode (u ++ v) = hexEncode u ++ hexEncode v := by
  induction u with
  | nil => rfl
  | cons b bs ih => simp [hexEncode, ih]

theorem filter_hexEncode (u : List (Fin 256)) :
    (hexEncode u).filter (fun c => decide (c ≠ '-')) = hexEncode u := by
  rw [List.filter_eq_self]
  intro c hc
  induction u with
  | nil => simp [hexEncode] at hc
  | cons b bs ih =>
    simp only [hexEncode, List.mem_cons] at hc
    rcases hc with rfl | rfl | hc
    · simpa using hexDigit_ne_dash _
    · simpa using hexDigit_ne_dash _
    · exact ih hc

theorem split_bytes (u : List (Fin 256)) :
    u.take 4 ++ ((u.drop 4).take 2 ++ ((u.drop 6).take 2 ++ ((u.drop 8).take 2 ++ u.drop 10))) = u := by
  have h10 : u.drop 10 = (u.drop 8).drop 2 := by rw [List.drop_drop]
  have h8 : u.drop 8 = (u.drop 6).drop 2 := by rw [List.drop_drop]
  have h6 : u.drop 6 = (u.drop 4).drop 2 := by rw [List.drop_drop]
  rw [h10, List.take_append_drop, h8, List.take_append_drop, h6, List.take_append_drop,
    List.take_append_drop]

theorem filter_encodeHex (u : List (Fin 256)) :
    (encodeHex u).filter (fun c => decide (c ≠ '-')) = hexEncode u := by
  unfold encodeHex
  simp only [List.filter_append, List.filter_cons, filter_hexEncode]
  simp only [ne_eq, not_true_eq_false, decide_False, Bool.false_eq_true, ↓reduceIte]
  rw [← hexEncode_append, ← hexEncode_append, ← hexEncode_append, ← hexEncode_append, split_bytes]

theorem encodeHex_inj (u v : List (Fin 256)) (h : encodeHex u = encodeHex v) : u = v := by
  apply hexEncode_inj
  rw [← filter_encodeHex u, ← filter_encodeHex v, h]

theorem lexLess_asymm : ∀ x y : List Char, lexLess x y = true → lexLess y x = false := by
  intro x
  induction x with
  | nil => intro y h; cases y <;> simp [lexLess] at h ⊢
  | cons a as ih =>
    intro y h
    cases y with
    | nil => simp [lexLess] at h
    | cons b bs =>
      unfold lexLess at h ⊢
      by_cases h1 : a.toNat < b.toNat
      · have h2 : ¬ b.toNat < a.toNat := by omega
        simp [h1, h2]
      · by_cases h2 : b.toNat < a.toNat
        · simp [h1, h2] at h
        · simp only [h1, h2, if_false] at h ⊢
          exact ih bs h

theorem lexLess_total : ∀ x y : List Char, x ≠ y → lexLess x y = false → lexLess y x = true := by
  intro x
  induction x with
  | nil => intro y hne h; cases y with
    | nil => exact absurd rfl hne
    | cons b bs => simp [lexLess] at h
  | cons a as ih =>
    intro y hne h
    cases y with
    | nil => simp [lexLess]
    | cons b bs =>
      unfold lexLess at h ⊢
      by_cases h1 : a.toNat < b.toNat
      · simp [h1] at h
      · by_cases h2 : b.toNat < a.toNat
        · simp [h2]
        · simp only [h1, h2, if_false] at h ⊢
          have hab : a = b := char_toNat_inj (by omega)
          subst hab
          exact ih bs (fun hh => hne (by rw [hh])) h
theorem string_inj (a b : UUID) (h : a.string = b.string) : a = b := by
  unfold UUID.string at h
  have hd : encodeHex a.bytes = encodeHex b.bytes := by injection h
  have hb := encodeHex_inj _ _ hd
  cases a; cases b
  simp only at hb
  subst hb
  rfl

theorem lockOrder_symm (a b : UUID) (hne : a ≠ b) : lockOrder b a = lockOrder a b := by
  have hstr : a.string.data ≠ b.string.data :=
    fun h => hne (string_inj a b (String.ext h))
  unfold lockOrder strLess
  cases h : lexLess b.string.data a.string.data with
  | true => simp [lexLess_asymm _ _ h]
  | false => simp [lexLess_total _ _ (fun hh => hstr hh.symm) h]

theorem lockOrder_less (a b : UUID) (hne : a ≠ b) :
    strLess (lockOrder a b).1.string (lockOrder a b).2.string = true := by
  have hstr : a.string.data ≠ b.string.data :=
    fun h => hne (string_inj a b (String.ext h))
  unfold lockOrder strLess
  cases h : lexLess b.string.data a.string.data with
  | true => simpa using h
  | false => simpa using lexLess_total _ _ (fun hh => hstr hh.symm) h

theorem lockRequests_append (xs ys : List Call) :
    lockRequests (xs ++ ys) = lockRequests xs ++ lockRequests ys := by
  unfold lockRequests; exact List.filterMap_append xs ys Call.lockedID

/-- The writes of `settle` request no lock. -/
theorem settle_lockRequests (env : Env) (ws wr : Wallet) (a : Int) (tx : Tx) :
    lockRequests (settle env ws wr a tx).tx.calls = lockRequests tx.calls := by
  unfold settle
  by_cases hlt : ws.Balance < a
  · rw [if_pos hlt]
  · rw [if_neg hlt]
    rcases UpdateBalance_cases env.faults.updateSender env.now tx ws.ID
      (wrap64 (ws.Balance - a)) with ⟨e1, he, _⟩ | ⟨_, _, he1⟩
    · rw [he]; simp [lockRequests_append, lockRequests, Call.lockedID]
    · rw [he1]
      simp only
      rcases UpdateBalance_cases env.faults.updateReceiver env.now
        ⟨⟨tx.db.wallets.map (setBalance env.now ws.ID (wrap64 (ws.Balance - a))),
          tx.db.transactions⟩, tx.calls ++ [Call.UpdateBalance ws.ID (wrap64 (ws.Balance - a))]⟩
        wr.ID (wrap64 (wr.Balance + a)) with ⟨e2, he, _⟩ | ⟨_, _, he2⟩
      · rw [he]; simp [lockRequests_append, lockRequests, Call.lockedID]
      · rw [he2]
        simp only
        rcases CreateTransaction_cases env
          ⟨⟨(tx.db.wallets.map (setBalance env.now ws.ID (wrap64 (ws.Balance - a)))).map
              (setBalance env.now wr.ID (wrap64 (wr.Balance + a))), tx.db.transactions⟩,
            tx.calls ++ [Call.UpdateBalance ws.ID (wrap64 (ws.Balance - a))] ++
              [Call.UpdateBalance wr.ID (wrap64 (wr.Balance + a))]⟩
          ⟨UUID.Nil, some ws.ID, some wr.ID, a, "TRANSFER", 0⟩ with ⟨m, _, he⟩ | ⟨_, he3⟩
        · rw [he]; simp [lockRequests_append, lockRequests, Call.lockedID]
        · rw [he3]; simp [lockRequests_append, lockRequests, Call.lockedID]

/-- The locks that the function passed to `WithTx` requests: the first id of the
lock order, then, once that row is read, the second. -/
theorem transferFn_lockRequests (env : Env) (s r : UUID) (a : Int) (tx : Tx) (hne : s ≠ r) :
    lockRequests (transferFn env s r a tx).tx.calls = lockRequests tx.calls ++
      (if env.faults.lockFirst = none ∧ (tx.db.findWallet (lockOrder s r).1).isSome then
        [(lockOrder s r).1, (lockOrder s r).2] else [(lockOrder s r).1]) := by
  cases h1 : env.faults.lockFirst with
  | some m =>
    simp [transferFn, GetByIDWithLock, h1, lockRequests_append, lockRequests, Call.lockedID]
  | none =>
    cases hf : tx.db.findWallet (lockOrder s r).1 with
    | none =>
      simp [transferFn, GetByIDWithLock, h1, hf, lockRequests_append, lockRequests,
        Call.lockedID]
    | some w1 =>
      cases h2 : env.faults.lockSecond with
      | some m =>
        simp [transferFn, GetByIDWithLock, h1, hf, h2, lockRequests_append, lockRequests,
          Call.lockedID]
      | none =>
        cases hg : tx.db.findWallet (lockOrder s r).2 with
        | none =>
          simp [transferFn, GetByIDWithLock, h1, hf, h2, hg, lockRequests_append, lockRequests,
            Call.lockedID]
        | some w2 =>
          have hex : ∃ ws wr, tx.db.findWallet s = some ws ∧ tx.db.findWallet r = some wr := by
            rcases lockOrder_cases s r with hl | hl
            · rw [hl] at hf hg; exact ⟨w1, w2, hf, hg⟩
            · rw [hl] at hf hg; exact ⟨w2, w1, hg, hf⟩
          obtain ⟨ws, wr, hs, hr⟩ := hex
          rw [transferFn_locked env s r a tx ws wr hne hs hr h1 h2, settle_lockRequests]
          simp [lockRequests_append, lockRequests, Call.lockedID]

/-- The locks that a call of `TransferMoney` requests. -/
theorem TransferMoney_lockRequests (env : Env) (w : World) (s r : UUID) (x : Int) (hne : s ≠ r) :
    lockRequests (TransferMoney env w s r x).calls =
      (if 0 < x ∧ env.faults.begin = none then
        (if env.faults.lockFirst = none ∧ (w.db.findWallet (lockOrder s r).1).isSome then
          [(lockOrder s r).1, (lockOrder s r).2] else [(lockOrder s r).1])
      else []) := by
  have hfn := transferFn_lockRequests env s r x ⟨w.db, [Call.Begin]⟩ hne
  have hbegin : lockRequests [Call.Begin] = [] := rfl
  rw [hbegin, List.nil_append] at hfn
  have htx : lockRequests (WithTx env.faults w.db (transferFn env s r x)).calls =
      (if env.faults.begin = none then
        lockRequests (transferFn env s r x ⟨w.db, [Call.Begin]⟩).tx.calls else []) := by
    unfold WithTx
    cases hb : env.faults.begin with
    | some m => simp [lockRequests, Call.lockedID]
    | none =>
      simp only
      cases (transferFn env s r x ⟨w.db, [Call.Begin]⟩).err with
      | some e => simp [lockRequests_append, lockRequests, Call.lockedID]
      | none =>
        simp only
        cases env.faults.commit with
        | some m => simp [lockRequests_append, lockRequests, Call.lockedID]
        | none => simp [lockRequests_append, lockRequests, Call.lockedID]
  unfold TransferMoney
  by_cases hx : x ≤ 0
  · have : ¬ 0 < x := by omega
    simp [hx, this, lockRequests]
  · have hpos : 0 < x := by omega
    rw [if_neg hx, if_neg hne]
    simp only [hpos, true_and]
    rw [← hfn, ← htx]
    cases (WithTx env.faults w.db (transferFn env s r x)).err with
    | some e => rfl
    | none =>
      simp only
      cases (WithTx env.faults w.db (transferFn env s r x)).transaction with
      | none => rfl
      | some t => simp [lockRequests_append, lockRequests, Call.lockedID]

/-- With a working store, sufficient funds and new balances that pass the check
constraint, `settle` returns nil. -/
theorem settle_success (env : Env) (ws wr : Wallet) (a : Int) (tx : Tx)
    (hf1 : env.faults.updateSender = none) (hf2 : env.faults.updateReceiver = none)
    (hf3 : env.faults.create = none) (hle : a ≤ ws.Balance)
    (hn1 : 0 ≤ wrap64 (ws.Balance - a)) (hn2 : 0 ≤ wrap64 (wr.Balance + a)) :
    (settle env ws wr a tx).err = none := by
  unfold settle
  rw [if_neg (by omega)]
  rcases UpdateBalance_cases env.faults.updateSender env.now tx ws.ID
    (wrap64 (ws.Balance - a)) with ⟨e1, _, ⟨m, hm, _⟩ | ⟨_, _, hneg, _⟩⟩ | ⟨_, _, he1⟩
  · rw [hf1] at hm; cases hm
  · omega
  · rw [he1]
    simp only
    rcases UpdateBalance_cases env.faults.updateReceiver env.now
      ⟨⟨tx.db.wallets.map (setBalance env.now ws.ID (wrap64 (ws.Balance - a))),
        tx.db.transactions⟩, tx.calls ++ [Call.UpdateBalance ws.ID (wrap64 (ws.Balance - a))]⟩
      wr.ID (wrap64 (wr.Balance + a)) with ⟨e2, _, ⟨m, hm, _⟩ | ⟨_, _, hneg, _⟩⟩ | ⟨_, _, he2⟩
    · rw [hf2] at hm; cases hm
    · omega
    · rw [he2]
      simp only
      rcases CreateTransaction_cases env
        ⟨⟨(tx.db.wallets.map (setBalance env.now ws.ID (wrap64 (ws.Balance - a)))).map
            (setBalance env.now wr.ID (wrap64 (wr.Balance + a))), tx.db.transactions⟩,
          tx.calls ++ [Call.UpdateBalance ws.ID (wrap64 (ws.Balance - a))] ++
            [Call.UpdateBalance wr.ID (wrap64 (wr.Balance + a))]⟩
        ⟨UUID.Nil, some ws.ID, some wr.ID, a, "TRANSFER", 0⟩ with ⟨m, hm, _⟩ | ⟨_, he3⟩
      · rw [hf3] at hm; cases hm
      · rw [he3]

theorem balanceOf_some {db : DB} {id : UUID} {b : Int} (h : db.balanceOf id = some b) :
    ∃ w, db.findWallet id = some w ∧ w.Balance = b := by
  unfold DB.balanceOf at h
  cases hf : db.findWallet id with
  | none => rw [hf] at h; cases h
  | some w =>
    rw [hf] at h
    simp only [Option.map_some', Option.some.injEq] at h
    exact ⟨w, rfl, h⟩

/-- With a working store, a positive amount, distinct existing wallets, funds that
suffice and a receiver balance that stays within `int64`, `TransferMoney`
succeeds, moves exactly the amount and appends one log entry. -/
theorem TransferMoney_success (env : Env) (w : World) (s r : UUID) (a sb rb : Int)
    (hok : env.faults.storeOK) (hpos : 0 < a) (hne : s ≠ r)
    (hs : w.db.balanceOf s = some sb) (hr : w.db.balanceOf r = some rb)
    (hle : a ≤ sb) (hsb : sb ≤ MaxInt64) (hrb : 0 ≤ rb) (hsum : rb + a ≤ MaxInt64) :
    (TransferMoney env w s r a).err = none ∧
      (TransferMoney env w s r a).world.db.balanceOf s = some (sb - a) ∧
      (TransferMoney env w s r a).world.db.balanceOf r = some (rb + a) ∧
      (TransferMoney env w s r a).world.db.transactions =
        w.db.transactions ++ [transferRow env s r a] := by
  obtain ⟨ws, hfs, hbs⟩ := balanceOf_some hs
  obtain ⟨wr, hfr, hbr⟩ := balanceOf_some hr
  obtain ⟨hb, h1, h2, hf1, hf2, hf3, hc⟩ := hok
  have hsid := findWallet_id hfs
  have hrid := findWallet_id hfr
  have hws : IsInt64 ws.Balance := by
    unfold IsInt64 MinInt64; unfold MaxInt64 at hsb ⊢; omega
  have hw1 : wrap64 (ws.Balance - a) = ws.Balance - a := wrap64_sub hws hpos (by omega)
  have hw2 : wrap64 (wr.Balance + a) = wr.Balance + a := by
    apply wrap64_of_isInt64
    unfold IsInt64 MinInt64; unfold MaxInt64 at hsum ⊢; omega
  have herr : (TransferMoney env w s r a).err = none := by
    have hfn := transferFn_locked env s r a ⟨w.db, [Call.Begin]⟩ ws wr hne hfs hfr h1 h2
    have hset := settle_success env ws wr a
      ⟨w.db, [Call.Begin] ++ [Call.GetByIDWithLock (lockOrder s r).1,
        Call.GetByIDWithLock (lockOrder s r).2]⟩ hf1 hf2 hf3 (by omega)
      (by rw [hw1]; omega) (by rw [hw2]; omega)
    have hwtx : (WithTx env.faults w.db (transferFn env s r a)).err = none := by
      unfold WithTx
      simp only [hb, hfn, hset, hc]
    obtain ⟨_, _, _, _, _, _, _, _, heq⟩ := WithTx_transferFn_ok env w.db s r a hne hwtx
    unfold TransferMoney
    rw [if_neg (by omega), if_neg hne]
    simp only [heq]
  obtain ⟨_, _, _, ws2, wr2, hfs2, hfr2, _, _, _, heq⟩ := TransferMoney_ok env w s r a herr
  rw [hfs] at hfs2
  rw [hfr] at hfr2
  cases hfs2
  cases hfr2
  have hne2 : ws.ID ≠ wr.ID := by rw [hsid, hrid]; exact hne
  have hb1 := balanceOf_settled_sender env ws wr a w.db
    (w.db.transactions ++ [transferRow env s r a]) hne2 (by rw [hsid]; exact hfs)
  have hb2 := balanceOf_settled_receiver env ws wr a w.db
    (w.db.transactions ++ [transferRow env s r a]) hne2 (by rw [hrid]; exact hfr)
  rw [hw1, hsid, hbs] at hb1
  rw [hw2, hrid, hbr] at hb2
  refine ⟨herr, ?_, ?_, ?_⟩
  · rw [heq]; exact hb1
  · rw [heq]; exact hb2
  · rw [heq]

theorem cacheLookup_filter_none (cache : List (UUID × Wallet)) (p : UUID × Wallet → Bool)
    (id : UUID) (h : cacheLookup cache id = none) : cacheLookup (cache.filter p) id = none := by
  unfold cacheLookup at h ⊢
  simp only [Option.map_eq_none', List.find?_eq_none, decide_eq_true_eq] at h ⊢
  intro kv hkv
  exact h kv (List.mem_of_mem_filter hkv)

theorem cacheLookup_filter_self (cache : List (UUID × Wallet)) (id : UUID) :
    cacheLookup (cache.filter (fun kv => decide (kv.1 ≠ id))) id = none := by
  unfold cacheLookup
  simp only [Option.map_eq_none', List.find?_eq_none, decide_eq_true_eq]
  intro kv hkv
  simpa using (List.mem_filter.mp hkv).2

/-- After two invalidations that succeed the cache holds no entry for either id. -/
theorem cacheAfter_none (env : Env) (cache : List (UUID × Wallet)) (s r : UUID)
    (h1 : env.faults.invalidateSender = none) (h2 : env.faults.invalidateReceiver = none) :
    cacheLookup (cacheAfter env cache s r) s = none ∧
      cacheLookup (cacheAfter env cache s r) r = none := by
  unfold cacheAfter InvalidateWallet
  simp only [h1, h2]
  exact ⟨cacheLookup_filter_none _ _ _ (cacheLookup_filter_self cache s),
    cacheLookup_filter_self _ r⟩

/-- A hit: the read of the cache is answered with an entry. -/
theorem GetBalance_hit (faults : ReadFaults) (w : World) (id : UUID) (cached : Wallet)
    (hg : faults.cacheGet = none) (hc : cacheLookup w.cache id = some cached) :
    GetBalance faults w id = ⟨some cached, none, w, [Call.GetWallet id]⟩ := by
  unfold GetBalance GetWallet
  simp only [hg, hc]

/-- No hit (a miss, or a read of the cache that fails) with the row in the store. -/
theorem GetBalance_store (faults : ReadFaults) (w : World) (id : UUID) (wallet : Wallet)
    (hmiss : cacheLookup w.cache id = none ∨ faults.cacheGet ≠ none)
    (hs : faults.storeGet = none) (hf : w.db.findWallet id = some wallet) :
    GetBalance faults w id =
      ⟨some wallet, none, ⟨w.db, (SetWallet faults.cacheSet w.cache wallet).2, w.queue⟩,
        [Call.GetWallet id, Call.GetByID id, Call.SetWallet wallet]⟩ := by
  have hget : (GetWallet faults.cacheGet w.cache id).1 = none := by
    unfold GetWallet
    cases hg : faults.cacheGet with
    | some m => rfl
    | none =>
      rcases hmiss with h | h
      · simp only [h]
      · exact absurd hg h
  unfold GetBalance GetByID
  cases hgw : GetWallet faults.cacheGet w.cache id with
  | mk c e =>
    rw [hgw] at hget
    simp only at hget
    subst hget
    simp only [hs, hf]

/-- A read leaves the cache without an entry for any other id that had none. -/
theorem GetBalance_cache_other (faults : ReadFaults) (w : World) (id id2 : UUID) (hne : id2 ≠ id)
    (h : cacheLookup w.cache id2 = none) :
    cacheLookup (GetBalance faults w id).world.cache id2 = none := by
  unfold GetBalance
  cases hgw : GetWallet faults.cacheGet w.cache id with
  | mk c e =>
    cases c with
    | some cached =>
      cases e with
      | none => exact h
      | some err =>
        simp only
        cases hb : GetByID faults.storeGet w.db id with
        | error e2 => exact h
        | ok wallet =>
          have hid : wallet.ID = id := by
            unfold GetByID at hb
            cases hs : faults.storeGet with
            | some m => simp [hs] at hb
            | none =>
              cases hf : w.db.findWallet id with
              | none => simp [hs, hf] at hb
              | some w2 =>
                simp only [hs, hf, Except.ok.injEq] at hb
                subst hb
                exact findWallet_id hf
          simp only [SetWallet]
          cases faults.cacheSet with
          | some m => exact h
          | none =>
            simp only
            unfold cacheLookup
            rw [List.find?_cons_of_neg _ (by simp [hid]; exact fun hh => hne hh.symm)]
            exact cacheLookup_filter_none _ _ _ h
    | none =>
      simp only
      cases hb : GetByID faults.storeGet w.db id with
      | error e2 => exact h
      | ok wallet =>
        have hid : wallet.ID = id := by
          unfold GetByID at hb
          cases hs : faults.storeGet with
          | some m => simp [hs] at hb
          | none =>
            cases hf : w.db.findWallet id with
            | none => simp [hs, hf] at hb
            | some w2 =>
              simp only [hs, hf, Except.ok.injEq] at hb
              subst hb
              exact findWallet_id hf
        simp only [SetWallet]
        cases faults.cacheSet with
        | some m => exact h
        | none =>
          simp only
          unfold cacheLookup
          rw [List.find?_cons_of_neg _ (by simp [hid]; exact fun hh => hne hh.symm)]
          exact cacheLookup_filter_none _ _ _ h

/-- A read never changes the store. -/
theorem GetBalance_db (faults : ReadFaults) (w : World) (id : UUID) :
    (GetBalance faults w id).world.db = w.db := by
  unfold GetBalance
  cases GetWallet faults.cacheGet w.cache id with
  | mk c e =>
    cases c with
    | some cached =>
      cases e with
      | none => rfl
      | some err =>
        simp only
        cases GetByID faults.storeGet w.db id <;> rfl
    | none =>
      simp only
      cases GetByID faults.storeGet w.db id <;> rfl

/-- A call of `CreateWallet` that returns a nil error: the generated identifier
was free, and the store gained exactly the new row. -/
theorem CreateWallet_ok (env : CreateEnv) (w : World) (userID : UUID)
    (h : (CreateWallet env w userID).err = none) :
    w.db.findWallet (createdRow env userID).ID = none ∧
      CreateWallet env w userID =
        ⟨some (createdRow env userID), none,
          ⟨⟨w.db.wallets ++ [createdRow env userID], w.db.transactions⟩, w.cache, w.queue⟩,
          [Call.CreateWallet ⟨UUID.Nil, userID, 0, 0, 0⟩]⟩ := by
  unfold CreateWallet walletRepoCreate at h ⊢
  cases hf : env.fault with
  | some m => simp [hf] at h
  | none =>
    by_cases hdup : (w.db.findWallet env.newID).isSome
    · simp [hf, hdup] at h
    · have hnone : w.db.findWallet env.newID = none := by simpa using hdup
      refine ⟨hnone, ?_⟩
      simp [hnone, createdRow]

theorem findWallet_append_new (db : DB) (row : Wallet) (h : db.findWallet row.ID = none) :
    (DB.mk (db.wallets ++ [row]) db.transactions).findWallet row.ID = some row := by
  unfold DB.findWallet at h ⊢
  rw [List.find?_append, h]
  simp

theorem string_ne_empty (u : UUID) : u.string ≠ "" := by
  unfold UUID.string encodeHex
  intro h
  have hd : (String.mk (hexEncode (u.bytes.take 4) ++ '-' :: (hexEncode ((u.bytes.drop 4).take 2) ++
      '-' :: (hexEncode ((u.bytes.drop 6).take 2) ++ '-' :: (hexEncode ((u.bytes.drop 8).take 2) ++
      '-' :: hexEncode (u.bytes.drop 10)))))).data = ("" : String).data := by rw [h]
  simp at hd

theorem Worker_Start_append (decode : List Nat → Option TransferEvent) (xs ys : List Delivery) :
    Worker.Start decode (xs ++ ys) = Worker.Start decode xs ++ Worker.Start decode ys := by
  induction xs with
  | nil => rfl
  | cons d ds ih =>
    simp only [List.cons_append, Worker.Start]
    cases decode d.Body <;> simp [ih]

theorem Worker_Start_cons (decode : List Nat → Option TransferEvent) (d : Delivery)
    (msgs : List Delivery) :
    Worker.Start decode (d :: msgs) = Worker.handles decode d ++ Worker.Start decode msgs := by
  simp only [Worker.Start, Worker.handles]
  cases decode d.Body <;> rfl

theorem Worker_handles_settles (decode : List Nat → Option TransferEvent) (d : Delivery)
    (tag : Nat) :
    ((Worker.handles decode d).filter (WorkerAction.settles tag)).length =
      if d.DeliveryTag = tag then 1 else 0 := by
  unfold Worker.handles
  cases decode d.Body <;> by_cases h : d.DeliveryTag = tag <;>
    simp [List.filter_cons, WorkerAction.settles, h]

/-- The acknowledgements and rejections that a delivery tag receives over the
loop: one per delivery that carries the tag. -/
theorem Worker_Start_settles (decode : List Nat → Option TransferEvent) (tag : Nat)
    (msgs : List Delivery) :
    ((Worker.Start decode msgs).filter (WorkerAction.settles tag)).length =
      (msgs.filter (fun d => decide (d.DeliveryTag = tag))).length := by
  induction msgs with
  | nil => rfl
  | cons d ds ih =>
    rw [Worker_Start_cons, List.filter_append, List.length_append, ih, Worker_handles_settles]
    by_cases h : d.DeliveryTag = tag
    · simp [List.filter_cons, h]; omega
    · simp [List.filter_cons, h]

theorem filter_tag_length_one (msgs : List Delivery) (d : Delivery)
    (hnodup : (msgs.map (fun x => x.DeliveryTag)).Nodup) (hd : d ∈ msgs) :
    (msgs.filter (fun x => decide (x.DeliveryTag = d.DeliveryTag))).length = 1 := by
  induction msgs with
  | nil => cases hd
  | cons x xs ih =>
    simp only [List.map_cons, List.nodup_cons, List.mem_map, not_exists, not_and] at hnodup
    rcases List.mem_cons.mp hd with rfl | hmem
    · have hnone : xs.filter (fun y => decide (y.DeliveryTag = d.DeliveryTag)) = [] := by
        rw [List.filter_eq_nil_iff]
        intro y hy
        simpa using hnodup.1 y hy
      simp [List.filter_cons, hnone]
    · have hx : ¬ x.DeliveryTag = d.DeliveryTag := fun h => hnodup.1 d hmem h.symm
      simp only [List.filter_cons, hx, decide_False, Bool.false_eq_true, if_false]
      exact ih hnodup.2 hmem

/-- What `UPDATE wallets SET balance, updated_at WHERE id` leaves of a row. -/
theorem setBalance_frame (now : Nat) (id : UUID) (nb : Int) (x : Wallet) :
    (setBalance now id nb x).ID = x.ID ∧ (setBalance now id nb x).UserID = x.UserID ∧
      (setBalance now id nb x).CreatedAt = x.CreatedAt ∧
      ((setBalance now id nb x).UpdatedAt = x.UpdatedAt ∨ (setBalance now id nb x).UpdatedAt = now) ∧
      (x.ID ≠ id → setBalance now id nb x = x) := by
  unfold setBalance
  by_cases h : x.ID = id
  · simp [h]
  · simp [h]

/-- In a list without repetition, an element at position `i` that is among the
first `j` has `i < j`. -/
theorem take_index_lt (P : List UUID) (hP : P.Nodup) :
    ∀ (i j : Nat) (x : UUID), P[i]? = some x → x ∈ P.take j → i < j := by
  induction P with
  | nil => intro i j x h; simp at h
  | cons p ps ih =>
    intro i j x hget hmem
    rw [List.nodup_cons] at hP
    cases j with
    | zero => simp at hmem
    | succ j =>
      cases i with
      | zero => omega
      | succ i =>
        rw [List.getElem?_cons_succ] at hget
        rw [List.take_succ_cons, List.mem_cons] at hmem
        rcases hmem with rfl | hmem
        · exact absurd (List.getElem?_mem hget) hP.1
        · have := ih hP.2 i j x hget hmem
          omega

theorem lockPlan_nodup (s r : UUID) : (lockPlan s r).Nodup := by
  unfold lockPlan
  by_cases h : s = r
  · simp [h]
  · rw [if_neg h]
    rcases lockOrder_cases s r with hl | hl
    · rw [hl]; simp [h]
    · rw [hl]; simp; exact fun hh => h hh.symm

theorem lockPlan_length (s r : UUID) : (lockPlan s r).length ≤ 2 := by
  unfold lockPlan
  split <;> simp

theorem lockPlan_symm (a b : UUID) : lockPlan b a = lockPlan a b := by
  unfold lockPlan
  by_cases h : a = b
  · subst h; rfl
  · rw [if_neg h, if_neg (fun hh => h hh.symm), lockOrder_symm a b h]

/-- Every call of `TransferMoney` requests its row locks along its lock plan. -/
theorem lockRequests_prefix_lockPlan (env : Env) (w : World) (s r : UUID) (x : Int) :
    lockRequests (TransferMoney env w s r x).calls <+: lockPlan s r := by
  by_cases hsr : s = r
  · have hcalls : (TransferMoney env w s r x).calls = [] := by
      unfold TransferMoney
      by_cases hx : x ≤ 0
      · simp [hx]
      · simp [hx, hsr]
    rw [hcalls]
    exact List.nil_prefix
  · rw [TransferMoney_lockRequests env w s r x hsr]
    unfold lockPlan
    rw [if_neg hsr]
    split
    · split
      · exact List.prefix_refl _
      · exact ⟨[(lockOrder s r).2], rfl⟩
    · exact List.nil_prefix

theorem progress_set (st : List Flight) (i : Nat) (t t2 : Flight) (h : st[i]? = some t) :
    progress (st.set i t2) + (if t.done then 3 else t.held) =
      progress st + (if t2.done then 3 else t2.held) := by
  unfold progress
  induction st generalizing i with
  | nil => simp at h
  | cons x xs ih =>
    cases i with
    | zero =>
      simp only [List.getElem?_cons_zero, Option.some.injEq] at h
      subst h
      simp only [List.set_cons_zero, List.map_cons, List.sum_cons]
      omega
    | succ i =>
      rw [List.getElem?_cons_succ] at h
      have := ih i h
      simp only [List.set_cons_succ, List.map_cons, List.sum_cons]
      omega

/-- A step keeps the plan and the number of calls, and adds to the progress. -/
theorem step_followsPlan (P : List UUID) (hP : P.length ≤ 2) (st st2 : List Flight) (i : Nat)
    (m : Move) (hinv : followsPlan P st) (h : step lockPlan st i m = some st2) :
    followsPlan P st2 ∧ st2.length = st.length ∧ progress st + 1 ≤ progress st2 := by
  unfold step at h
  cases hg : st[i]? with
  | none => simp [hg] at h
  | some t =>
    have ht := hinv t (List.getElem?_mem hg)
    simp only [hg] at h
    by_cases hd : t.done = true
    · simp [hd] at h
    · have hdf : t.done = false := by simpa using hd
      rw [if_neg hd] at h
      have key : ∀ t2 : Flight, t2.senderID = t.senderID → t2.receiverID = t.receiverID →
          t2.held ≤ P.length → (if t.done then 3 else t.held) + 1 ≤ (if t2.done then 3 else t2.held) →
          st2 = st.set i t2 →
          followsPlan P st2 ∧ st2.length = st.length ∧ progress st + 1 ≤ progress st2 := by
        intro t2 h1 h2 h3 h4 h5
        subst h5
        refine ⟨?_, List.length_set _ _ _, ?_⟩
        · intro u hu
          rcases List.mem_or_eq_of_mem_set hu with hu | rfl
          · exact hinv u hu
          · rw [h1, h2]; exact ⟨ht.1, h3⟩
        · have := progress_set st i t t2 hg
          omega
      cases m with
      | grant =>
        simp only at h
        cases hw : t.waitsFor lockPlan with
        | none => simp [hw] at h
        | some id =>
          simp only [hw] at h
          by_cases hfree : isFree lockPlan st id = true
          · rw [if_pos hfree, Option.some.injEq] at h
            have hlt : t.held < P.length := by
              unfold Flight.waitsFor at hw
              simp only [hdf, Bool.false_eq_true, if_false, ht.1] at hw
              by_contra hcon
              rw [List.getElem?_eq_none_iff.mpr (by omega)] at hw
              cases hw
            exact key { t with held := t.held + 1 } rfl rfl (by simp only; omega)
              (by simp only [hdf]; simp) h.symm
          · simp [hfree] at h
      | finish =>
        simp only at h
        by_cases hall : t.held = (lockPlan t.senderID t.receiverID).length
        · rw [if_pos hall, Option.some.injEq] at h
          exact key { t with done := true } rfl rfl ht.2
            (by simp only [hdf]; simp; omega) h.symm
        · simp [hall] at h
      | fail =>
        simp only at h
        by_cases hall : t.held < (lockPlan t.senderID t.receiverID).length
        · rw [if_pos hall, Option.some.injEq] at h
          exact key { t with done := true } rfl rfl ht.2
            (by simp only [hdf]; simp; omega) h.symm
        · simp [hall] at h

/-- An execution keeps the plan and the number of calls, and its length is at
most the progress made. -/
theorem run_followsPlan (P : List UUID) (hP : P.length ≤ 2) (sched : List (Nat × Move)) :
    ∀ (st st2 : List Flight), followsPlan P st → run lockPlan st sched = some st2 →
      followsPlan P st2 ∧ st2.length = st.length ∧ progress st + sched.length ≤ progress st2 := by
  induction sched with
  | nil =>
    intro st st2 hinv h
    simp only [run, Option.some.injEq] at h
    subst h
    exact ⟨hinv, rfl, by simp⟩
  | cons head rest ih =>
    intro st st2 hinv h
    obtain ⟨i, m⟩ := head
    simp only [run] at h
    cases hs : step lockPlan st i m with
    | none => simp [hs] at h
    | some st1 =>
      simp only [hs] at h
      obtain ⟨h1, h2, h3⟩ := step_followsPlan P hP st st1 i m hinv hs
      obtain ⟨k1, k2, k3⟩ := ih st1 st2 h1 h
      refine ⟨k1, by omega, ?_⟩
      simp only [List.length_cons]
      omega

theorem progress_le (P : List UUID) (hP : P.length ≤ 2) (st : List Flight)
    (hinv : followsPlan P st) : progress st ≤ 3 * st.length := by
  unfold progress
  induction st with
  | nil => simp
  | cons x xs ih =>
    have hx := hinv x (List.mem_cons_self _ _)
    have := ih (fun t ht => hinv t (List.mem_cons_of_mem _ ht))
    simp only [List.map_cons, List.sum_cons, List.length_cons]
    split <;> omega

/-- With one plan without repetition for all the calls, no two calls wait for
each other. -/
theorem followsPlan_not_deadlocked (P : List UUID) (hnd : P.Nodup) (st : List Flight)
    (hinv : followsPlan P st) : deadlocked lockPlan st = false := by
  unfold deadlocked
  rw [List.any_eq_false]
  intro t ht
  rw [List.any_eq_true]
  rintro ⟨u, hu, hm⟩
  have hpt := (hinv t ht).1
  have hpu := (hinv u hu).1
  cases hwt : t.waitsFor lockPlan with
  | none => simp [hwt] at hm
  | some x =>
    cases hwu : u.waitsFor lockPlan with
    | none => simp [hwt, hwu] at hm
    | some y =>
      simp only [hwt, hwu, Bool.and_eq_true, decide_eq_true_eq] at hm
      obtain ⟨hx, hy⟩ := hm
      unfold Flight.waitsFor at hwt hwu
      unfold Flight.holds at hx hy
      by_cases hdt : t.done = true
      · simp [hdt] at hwt
      · by_cases hdu : u.done = true
        · simp [hdu] at hwu
        · simp only [hdt, hdu, if_false, hpt, hpu] at hwt hwu hx hy
          have h1 := take_index_lt P hnd _ _ _ hwt hx
          have h2 := take_index_lt P hnd _ _ _ hwu hy
          omega

/-- With one plan without repetition for all the calls, a call whose unit of work
has not ended implies that some call can go on: the one that holds the most
locks either holds them all or waits for a lock that is free. -/
theorem followsPlan_canProceed (P : List UUID) (hnd : P.Nodup) (st : List Flight)
    (hinv : followsPlan P st) :
    ∀ (n : Nat) (t : Flight), t ∈ st → t.done = false → P.length - t.held ≤ n →
      canProceed lockPlan st = true := by
  intro n
  induction n with
  | zero =>
    intro t ht hd hn
    obtain ⟨i, hi⟩ := List.mem_iff_getElem?.mp ht
    have hpt := hinv t ht
    unfold canProceed
    rw [List.any_eq_true]
    have hil : i < st.length := by
      by_contra hcon
      rw [List.getElem?_eq_none_iff.mpr (by omega)] at hi
      cases hi
    refine ⟨i, List.mem_range.mpr hil, ?_⟩
    have hfin : step lockPlan st i .finish = some (st.set i { t with done := true }) := by
      unfold step
      simp only [hi, hd, Bool.false_eq_true, if_false, hpt.1]
      rw [if_pos (by omega)]
    simp [hfin]
  | succ n ih =>
    intro t ht hd hn
    obtain ⟨i, hi⟩ := List.mem_iff_getElem?.mp ht
    have hpt := hinv t ht
    have hil : i < st.length := by
      by_contra hcon
      rw [List.getElem?_eq_none_iff.mpr (by omega)] at hi
      cases hi
    by_cases hall : t.held = P.length
    · exact ih t ht hd (by omega)
    · have hlt : t.held < P.length := by omega
      have hw : ∃ x, P[t.held]? = some x := by
        cases hg : P[t.held]? with
        | none => rw [List.getElem?_eq_none_iff] at hg; omega
        | some x => exact ⟨x, rfl⟩
      obtain ⟨x, hx⟩ := hw
      have hwt : t.waitsFor lockPlan = some x := by
        unfold Flight.waitsFor
        simp only [hd, Bool.false_eq_true, if_false, hpt.1, hx]
      by_cases hfree : isFree lockPlan st x = true
      · unfold canProceed
        rw [List.any_eq_true]
        refine ⟨i, List.mem_range.mpr hil, ?_⟩
        have hgr : step lockPlan st i .grant =
            some (st.set i { t with held := t.held + 1 }) := by
          unfold step
          simp only [hi, hd, Bool.false_eq_true, if_false, hwt, hfree, if_true]
        simp [hgr]
      · unfold isFree at hfree
        rw [List.all_eq_true] at hfree
        push_neg at hfree
        obtain ⟨u, hu, hux⟩ := hfree
        have hux : x ∈ u.holds lockPlan := by
          by_contra hcon
          exact hux (decide_eq_true hcon)
        have hpu := hinv u hu
        unfold Flight.holds at hux
        by_cases hdu : u.done = true
        · simp [hdu] at hux
        · have hduf : u.done = false := by simpa using hdu
          simp only [hduf, Bool.false_eq_true, if_false, hpu.1] at hux
          have := take_index_lt P hnd _ _ _ hx hux
          exact ih u hu hduf (by omega)

theorem progress_issue (pairs : List (UUID × UUID)) : progress (issue pairs) = 0 := by
  unfold progress issue
  induction pairs with
  | nil => rfl
  | cons p ps ih =>
    simp only [List.map_cons, List.sum_cons, Bool.false_eq_true, if_false, zero_add]
    exact ih

/-- The model of the row locks is not free of deadlock by itself: were the
sender's row locked first, a transfer from A to B and one from B to A could each
take one lock and wait for the other, and then no call could go on. -/
theorem senderFirstPlan_deadlocks :
    (run senderFirstPlan (issue [(walletA.ID, walletB.ID), (walletB.ID, walletA.ID)])
        [(0, .grant), (1, .grant)]).map
      (fun st => (deadlocked senderFirstPlan st, canProceed senderFirstPlan st)) =
      some (true, false) := by
  decide

/-! ## The claims -/

/-- C1. Conservation: when `TransferMoney` returns success, the sender's balance
plus the receiver's balance after the call equals their sum before the call, as
integers, for every `int64` amount and `int64` balances. -/
theorem C1_conservation (env : Env) (w : World) (senderID receiverID : UUID) (amount : Int)
    (ha : IsInt64 amount) (hw : ∀ x ∈ w.db.wallets, IsInt64 x.Balance)
    (h : (TransferMoney env w senderID receiverID amount).err = none) :
    ∃ sb rb sb2 rb2, w.db.balanceOf senderID = some sb ∧ w.db.balanceOf receiverID = some rb ∧
      (TransferMoney env w senderID receiverID amount).world.db.balanceOf senderID = some sb2 ∧
      (TransferMoney env w senderID receiverID amount).world.db.balanceOf receiverID = some rb2 ∧
      sb2 + rb2 = sb + rb := by
  obtain ⟨sb, rb, h1, h2, _, h3, h4⟩ :=
    TransferMoney_ok_balances env w senderID receiverID amount ha hw h
  exact ⟨sb, rb, sb - amount, rb + amount, h1, h2, h3, h4, by omega⟩

/-- Witness of C1: a transfer of 1 from A (1000) to B (0). -/
theorem C1_conservation_witness :
    ∃ sb rb sb2 rb2, world0.db.balanceOf walletA.ID = some sb ∧
      world0.db.balanceOf walletB.ID = some rb ∧
      (TransferMoney envOK world0 walletA.ID walletB.ID 1).world.db.balanceOf walletA.ID =
        some sb2 ∧
      (TransferMoney envOK world0 walletA.ID walletB.ID 1).world.db.balanceOf walletB.ID =
        some rb2 ∧
      sb2 + rb2 = sb + rb :=
  C1_conservation envOK world0 walletA.ID walletB.ID 1 (by decide) (by decide) (by decide)

/-- C2. Balance non-negativity is an invariant of the transfer engine: if every
stored balance is at least 0 before a call of `TransferMoney`, with any ids, any
amount and any failures, every stored balance is at least 0 after it. -/
theorem C2_nonnegative_invariant (env : Env) (w : World) (senderID receiverID : UUID)
    (amount : Int) (hw : ∀ x ∈ w.db.wallets, 0 ≤ x.Balance) :
    ∀ x ∈ (TransferMoney env w senderID receiverID amount).world.db.wallets, 0 ≤ x.Balance := by
  cases he : (TransferMoney env w senderID receiverID amount).err with
  | some e =>
    rw [(TransferMoney_err_world env w senderID receiverID amount e he).1]
    exact hw
  | none =>
    obtain ⟨_, _, _, ws, wr, _, _, _, hn1, hn2, heq⟩ :=
      TransferMoney_ok env w senderID receiverID amount he
    rw [heq]
    intro x hx
    simp only [settledWallets, List.mem_map] at hx
    obtain ⟨y, ⟨z, hz, rfl⟩, rfl⟩ := hx
    exact setBalance_nonneg _ _ _ _ hn2 (setBalance_nonneg _ _ _ _ hn1 (hw z hz))

/-- Witness of C2: a transfer of 1 to a receiver that holds the greatest `int64`
is refused by the store, and every balance stays at least 0. -/
theorem C2_nonnegative_invariant_witness :
    (TransferMoney envOK worldFull walletA.ID walletB.ID 1).err = some .CheckViolation ∧
      ∀ x ∈ (TransferMoney envOK worldFull walletA.ID walletB.ID 1).world.db.wallets,
        0 ≤ x.Balance :=
  ⟨by decide, C2_nonnegative_invariant envOK worldFull walletA.ID walletB.ID 1 (by decide)⟩

/-- C3. Atomicity on failure: when `TransferMoney` returns an error, whatever the
cause (a lock, insufficient funds, either balance update, the log append or the
commit), the wallets and the transaction log in the store are those of before
the call. -/
theorem C3_atomic_failure (env : Env) (w : World) (senderID receiverID : UUID) (amount : Int)
    (e : Error) (h : (TransferMoney env w senderID receiverID amount).err = some e) :
    (TransferMoney env w senderID receiverID amount).world.db = w.db := by
  rw [(TransferMoney_err_world env w senderID receiverID amount e h).1]

/-- Witness of C3: the log append fails after both balance updates were issued. -/
theorem C3_atomic_failure_witness :
    (Call.UpdateBalance walletA.ID 999 ∈
        (TransferMoney envCreateFails world0 walletA.ID walletB.ID 1).calls ∧
      Call.UpdateBalance walletB.ID 1 ∈
        (TransferMoney envCreateFails world0 walletA.ID walletB.ID 1).calls) ∧
      (TransferMoney envCreateFails world0 walletA.ID walletB.ID 1).world.db = world0.db :=
  ⟨by decide, C3_atomic_failure envCreateFails world0 walletA.ID walletB.ID 1
    (.Driver "connection reset") (by decide)⟩

/-- C4. Insufficient funds: for an amount above 0 and distinct existing wallets
whose sender holds less than the amount (the store answering the begin and the
two locking reads), `TransferMoney` returns the error `insufficient funds`, the
text of `ErrInsufficientFunds`, and no transaction entry; it issues no balance
update and no log append and leaves the store, hence both balances, unchanged. -/
theorem C4_insufficient_funds (env : Env) (w : World) (senderID receiverID : UUID)
    (amount : Int) (sender receiver : Wallet) (hpos : 0 < amount) (hne : senderID ≠ receiverID)
    (hs : w.db.findWallet senderID = some sender) (hr : w.db.findWallet receiverID = some receiver)
    (hlt : sender.Balance < amount) (hb : env.faults.begin = none)
    (h1 : env.faults.lockFirst = none) (h2 : env.faults.lockSecond = none) :
    (TransferMoney env w senderID receiverID amount).err = some (.New "insufficient funds") ∧
      (Error.New "insufficient funds").message = Error.ErrInsufficientFunds.message ∧
      (TransferMoney env w senderID receiverID amount).transaction = none ∧
      (TransferMoney env w senderID receiverID amount).calls =
        [Call.Begin, Call.GetByIDWithLock (lockOrder senderID receiverID).1,
          Call.GetByIDWithLock (lockOrder senderID receiverID).2, Call.Rollback] ∧
      (∀ c ∈ (TransferMoney env w senderID receiverID amount).calls, c.isWrite = false) ∧
      (TransferMoney env w senderID receiverID amount).world = w := by
  have hfn := transferFn_locked env senderID receiverID amount ⟨w.db, [Call.Begin]⟩
    sender receiver hne hs hr h1 h2
  have hset : ∀ tx, settle env sender receiver amount tx =
      ⟨some (.New "insufficient funds"), none, tx⟩ := by
    intro tx; unfold settle; rw [if_pos hlt]
  have heq : TransferMoney env w senderID receiverID amount =
      ⟨none, some (.New "insufficient funds"), w,
        [Call.Begin, Call.GetByIDWithLock (lockOrder senderID receiverID).1,
          Call.GetByIDWithLock (lockOrder senderID receiverID).2, Call.Rollback]⟩ := by
    unfold TransferMoney WithTx
    rw [if_neg (by omega), if_neg hne]
    simp only [hb, hfn, hset]
    rfl
  rw [heq]
  refine ⟨rfl, rfl, rfl, rfl, ?_, rfl⟩
  intro c hc
  simp only [List.mem_cons, List.mem_singleton, List.not_mem_nil, or_false] at hc
  rcases hc with rfl | rfl | rfl | rfl <;> rfl

/-- Witness of C4: balance(A) = 0, amount 100. -/
theorem C4_insufficient_funds_witness :
    (TransferMoney envOK worldZero (UUID.ofByte 1) (UUID.ofByte 2) 100).err =
        some (.New "insufficient funds") ∧
      (Error.New "insufficient funds").message = Error.ErrInsufficientFunds.message ∧
      (TransferMoney envOK worldZero (UUID.ofByte 1) (UUID.ofByte 2) 100).transaction = none ∧
      (TransferMoney envOK worldZero (UUID.ofByte 1) (UUID.ofByte 2) 100).calls =
        [Call.Begin, Call.GetByIDWithLock (lockOrder (UUID.ofByte 1) (UUID.ofByte 2)).1,
          Call.GetByIDWithLock (lockOrder (UUID.ofByte 1) (UUID.ofByte 2)).2, Call.Rollback] ∧
      (∀ c ∈ (TransferMoney envOK worldZero (UUID.ofByte 1) (UUID.ofByte 2) 100).calls,
        c.isWrite = false) ∧
      (TransferMoney envOK worldZero (UUID.ofByte 1) (UUID.ofByte 2) 100).world = worldZero :=
  C4_insufficient_funds envOK worldZero (UUID.ofByte 1) (UUID.ofByte 2) 100
    ⟨UUID.ofByte 1, UUID.ofByte 11, 0, 0, 0⟩ ⟨UUID.ofByte 2, UUID.ofByte 12, 0, 0, 0⟩
    (by decide) (by decide) (by decide) (by decide) (by decide) rfl rfl rfl

/-- C5. Rejection without side effects: with an amount of 0 or less, or with the
sender equal to the receiver, `TransferMoney` returns an error and no
transaction entry without making any call to a collaborator (no unit of work,
no lock, no read or write, no log append, no invalidation, no publish); the
store, the log, the cache and the queue are unchanged. -/
theorem C5_rejection_no_side_effects (env : Env) (w : World) (senderID receiverID : UUID)
    (amount : Int) (h : amount ≤ 0 ∨ senderID = receiverID) :
    (TransferMoney env w senderID receiverID amount).err =
        some (if amount ≤ 0 then .New "amount must be positive"
          else .New "cannot transfer to self") ∧
      (TransferMoney env w senderID receiverID amount).transaction = none ∧
      (TransferMoney env w senderID receiverID amount).calls = [] ∧
      (TransferMoney env w senderID receiverID amount).world = w := by
  unfold TransferMoney
  by_cases ha : amount ≤ 0
  · simp [ha]
  · have hsr : senderID = receiverID := h.resolve_left ha
    simp [ha, hsr]

/-- Witness of C5: amount 0 between two distinct wallets. -/
theorem C5_rejection_no_side_effects_witness :
    (TransferMoney envOK world0 walletA.ID walletB.ID 0).err =
        some (if (0 : Int) ≤ 0 then .New "amount must be positive"
          else .New "cannot transfer to self") ∧
      (TransferMoney envOK world0 walletA.ID walletB.ID 0).transaction = none ∧
      (TransferMoney envOK world0 walletA.ID walletB.ID 0).calls = [] ∧
      (TransferMoney envOK world0 walletA.ID walletB.ID 0).world = world0 :=
  C5_rejection_no_side_effects envOK world0 walletA.ID walletB.ID 0 (Or.inl (by decide))

/-- C6. Effect of a successful transfer: when `TransferMoney` returns success,
the sender's stored balance is its previous balance minus the amount, the
receiver's is its previous balance plus the amount, and the log is the previous
log followed by exactly one entry, of type TRANSFER with the given sender,
receiver and amount, which is the entry returned. -/
theorem C6_successful_transfer_effect (env : Env) (w : World) (senderID receiverID : UUID)
    (amount : Int) (ha : IsInt64 amount) (hw : ∀ x ∈ w.db.wallets, IsInt64 x.Balance)
    (h : (TransferMoney env w senderID receiverID amount).err = none) :
    ∃ sb rb t, w.db.balanceOf senderID = some sb ∧ w.db.balanceOf receiverID = some rb ∧
      (TransferMoney env w senderID receiverID amount).world.db.balanceOf senderID =
        some (sb - amount) ∧
      (TransferMoney env w senderID receiverID amount).world.db.balanceOf receiverID =
        some (rb + amount) ∧
      (TransferMoney env w senderID receiverID amount).world.db.transactions =
        w.db.transactions ++ [t] ∧
      (TransferMoney env w senderID receiverID amount).transaction = some t ∧
      t.Type_ = "TRANSFER" ∧ t.SenderID = some senderID ∧ t.ReceiverID = some receiverID ∧
      t.Amount = amount := by
  obtain ⟨sb, rb, h1, h2, _, h3, h4⟩ :=
    TransferMoney_ok_balances env w senderID receiverID amount ha hw h
  obtain ⟨_, _, _, ws, wr, _, _, _, _, _, heq⟩ :=
    TransferMoney_ok env w senderID receiverID amount h
  refine ⟨sb, rb, transferRow env senderID receiverID amount, h1, h2, h3, h4, ?_, ?_,
    rfl, rfl, rfl, rfl⟩
  · rw [heq]
  · rw [heq]

/-- Witness of C6: a transfer of 1 from A (1000) to B (0). -/
theorem C6_successful_transfer_effect_witness :
    ∃ sb rb t, world0.db.balanceOf walletA.ID = some sb ∧
      world0.db.balanceOf walletB.ID = some rb ∧
      (TransferMoney envOK world0 walletA.ID walletB.ID 1).world.db.balanceOf walletA.ID =
        some (sb - 1) ∧
      (TransferMoney envOK world0 walletA.ID walletB.ID 1).world.db.balanceOf walletB.ID =
        some (rb + 1) ∧
      (TransferMoney envOK world0 walletA.ID walletB.ID 1).world.db.transactions =
        world0.db.transactions ++ [t] ∧
      (TransferMoney envOK world0 walletA.ID walletB.ID 1).transaction = some t ∧
      t.Type_ = "TRANSFER" ∧ t.SenderID = some walletA.ID ∧ t.ReceiverID = some walletB.ID ∧
      t.Amount = 1 :=
  C6_successful_transfer_effect envOK world0 walletA.ID walletB.ID 1 (by decide) (by decide)
    (by decide)

/-- C7, as stated, fails: with amount 0 the error returned is a value made on
the spot, not `ErrInvalidAmount` nor any other of the five declared domain
errors; for a transfer to self the text is not even that of `ErrSelfTransfer`;
and for an unknown wallet the error is not `ErrWalletNotFound`. -/
theorem C7_counterexample :
    ((TransferMoney envOK world0 walletA.ID walletB.ID 0).err =
        some (.New "amount must be positive") ∧
      Error.New "amount must be positive" ≠ Error.ErrInvalidAmount ∧
      (Error.New "amount must be positive").isDomain = false) ∧
    ((TransferMoney envOK world0 walletA.ID walletA.ID 1).err =
        some (.New "cannot transfer to self") ∧
      (Error.New "cannot transfer to self").message ≠ Error.ErrSelfTransfer.message) ∧
    ((TransferMoney envOK world0 walletA.ID (UUID.ofByte 7) 1).err =
        some (.Errorf (lockText (UUID.ofByte 7)) .ErrRecordNotFound) ∧
      Error.Errorf (lockText (UUID.ofByte 7)) .ErrRecordNotFound ≠ Error.ErrWalletNotFound) := by
  decide

/-- C7, amended. Every error returned by `TransferMoney` is chosen by cause and
none is one of the five declared domain errors: a new error `amount must be
positive` when the amount is 0 or less; a new error `cannot transfer to self`
when the ids are equal; a new error `insufficient funds` when the sender holds
less than the amount; gorm's record-not-found wrapped in `failed to lock wallet
<id>: ` when the sender or receiver id is unknown to the store; and for any
other store failure the store's own error, wrapped in the same way when it
comes from a locking read and as it is otherwise. -/
theorem C7_error_taxonomy (env : Env) (w : World) (senderID receiverID : UUID) (amount : Int)
    (e : Error) (h : (TransferMoney env w senderID receiverID amount).err = some e) :
    e.isDomain = false ∧
      ((amount ≤ 0 ∧ e = .New "amount must be positive") ∨
        (0 < amount ∧ senderID = receiverID ∧ e = .New "cannot transfer to self") ∨
        (0 < amount ∧ senderID ≠ receiverID ∧
          ((∃ sender, w.db.findWallet senderID = some sender ∧ sender.Balance < amount ∧
              e = .New "insufficient funds") ∨
            (∃ id, (id = senderID ∨ id = receiverID) ∧ w.db.findWallet id = none ∧
              e = .Errorf (lockText id) .ErrRecordNotFound) ∨
            (∃ id m, (id = senderID ∨ id = receiverID) ∧
              e = .Errorf (lockText id) (.Driver m)) ∨
            (∃ m, e = .Driver m) ∨ e = .CheckViolation))) := by
  have key : (amount ≤ 0 ∧ e = .New "amount must be positive") ∨
        (0 < amount ∧ senderID = receiverID ∧ e = .New "cannot transfer to self") ∨
        (0 < amount ∧ senderID ≠ receiverID ∧
          ((∃ sender, w.db.findWallet senderID = some sender ∧ sender.Balance < amount ∧
              e = .New "insufficient funds") ∨
            (∃ id, (id = senderID ∨ id = receiverID) ∧ w.db.findWallet id = none ∧
              e = .Errorf (lockText id) .ErrRecordNotFound) ∨
            (∃ id m, (id = senderID ∨ id = receiverID) ∧
              e = .Errorf (lockText id) (.Driver m)) ∨
            (∃ m, e = .Driver m) ∨ e = .CheckViolation)) := by
    unfold TransferMoney at h
    by_cases ha : amount ≤ 0
    · rw [if_pos ha] at h
      simp only [Option.some.injEq] at h
      exact Or.inl ⟨ha, h.symm⟩
    · rw [if_neg ha] at h
      by_cases hsr : senderID = receiverID
      · rw [if_pos hsr] at h
        simp only [Option.some.injEq] at h
        exact Or.inr (Or.inl ⟨by omega, hsr, h.symm⟩)
      · rw [if_neg hsr] at h
        refine Or.inr (Or.inr ⟨by omega, hsr, ?_⟩)
        cases he : (WithTx env.faults w.db (transferFn env senderID receiverID amount)).err with
        | none =>
          obtain ⟨_, ws, wr, _, _, _, _, _, heq⟩ :=
            WithTx_transferFn_ok env w.db senderID receiverID amount hsr he
          rw [heq] at h
          simp at h
        | some e2 =>
          simp only [he, Option.some.injEq] at h
          subst h
          rcases WithTx_err _ _ _ _ he with hd | hfn
          · exact Or.inr (Or.inr (Or.inr (Or.inl hd)))
          · exact transferFn_err env senderID receiverID amount _ _ hsr hfn
  refine ⟨?_, key⟩
  rcases key with ⟨_, rfl⟩ | ⟨_, _, rfl⟩ | ⟨_, _, ⟨_, _, _, rfl⟩ | ⟨_, _, _, rfl⟩ |
    ⟨_, _, _, rfl⟩ | ⟨_, rfl⟩ | rfl⟩ <;> rfl

/-- Witness of C7 amended: the receiver id is unknown to the store. -/
theorem C7_error_taxonomy_witness :
    (Error.Errorf (lockText (UUID.ofByte 7)) .ErrRecordNotFound).isDomain = false ∧
      (Error.Errorf (lockText (UUID.ofByte 7)) .ErrRecordNotFound).message =
        "failed to lock wallet 00000000-0000-0000-0000-000000000007: record not found" :=
  ⟨(C7_error_taxonomy envOK world0 walletA.ID (UUID.ofByte 7) 1
    (.Errorf (lockText (UUID.ofByte 7)) .ErrRecordNotFound) (by decide)).1, by decide⟩

/-- C8. Best-effort side effects never escalate: when the unit of work of a call
of `TransferMoney` commits, then whatever the outcomes `f1`, `f2`, `f3` of the
two cache invalidations and of the publish, the call returns the committed entry
and a nil error, the store holds what was committed (the entry is in the log),
and after the commit each invalidation and the publish is called exactly once. -/
theorem C8_best_effort_side_effects (env : Env) (w : World) (senderID receiverID : UUID)
    (amount : Int) (f1 f2 f3 : Option String) (hpos : 0 < amount) (hne : senderID ≠ receiverID)
    (hcommit : (WithTx env.faults w.db (transferFn env senderID receiverID amount)).err = none) :
    (TransferMoney (env.withPost f1 f2 f3) w senderID receiverID amount).err = none ∧
      (∃ t, (TransferMoney (env.withPost f1 f2 f3) w senderID receiverID amount).transaction =
          some t ∧
        (WithTx env.faults w.db (transferFn env senderID receiverID amount)).transaction =
          some t ∧
        t ∈ (TransferMoney (env.withPost f1 f2 f3) w senderID receiverID amount).world.db.transactions ∧
        (TransferMoney (env.withPost f1 f2 f3) w senderID receiverID amount).calls =
          (WithTx env.faults w.db (transferFn env senderID receiverID amount)).calls ++
            [Call.InvalidateWallet senderID, Call.InvalidateWallet receiverID,
              Call.PublishTransferEvent ⟨t.ID, senderID, receiverID, amount⟩]) ∧
      (TransferMoney (env.withPost f1 f2 f3) w senderID receiverID amount).world.db =
        (WithTx env.faults w.db (transferFn env senderID receiverID amount)).db := by
  have hsame : WithTx (env.withPost f1 f2 f3).faults w.db
      (transferFn (env.withPost f1 f2 f3) senderID receiverID amount) =
      WithTx env.faults w.db (transferFn env senderID receiverID amount) := rfl
  obtain ⟨_, ws, wr, _, _, _, _, _, heq⟩ :=
    WithTx_transferFn_ok env w.db senderID receiverID amount hne hcommit
  have hT : TransferMoney (env.withPost f1 f2 f3) w senderID receiverID amount =
      ⟨some (transferRow env senderID receiverID amount), none,
        ⟨⟨settledWallets env ws wr amount w.db.wallets,
            w.db.transactions ++ [transferRow env senderID receiverID amount]⟩,
          cacheAfter (env.withPost f1 f2 f3) w.cache senderID receiverID,
          (PublishTransferEvent f3 w.queue (transferEvent env senderID receiverID amount)).2⟩,
        commitCalls senderID receiverID ws wr amount ++
          [Call.InvalidateWallet senderID, Call.InvalidateWallet receiverID,
            Call.PublishTransferEvent (transferEvent env senderID receiverID amount)]⟩ := by
    unfold TransferMoney
    rw [if_neg (by omega), if_neg hne]
    simp only [hsame, heq]
    rfl
  rw [hT, heq]
  refine ⟨rfl, ⟨transferRow env senderID receiverID amount, rfl, rfl, by simp, rfl⟩, rfl⟩

/-- Witness of C8: both invalidations and the publish fail after the commit. -/
theorem C8_best_effort_side_effects_witness :
    (TransferMoney envPostFails world0 walletA.ID walletB.ID 1).err = none ∧
      (TransferMoney envPostFails world0 walletA.ID walletB.ID 1).world.db.balanceOf walletA.ID =
        some 999 ∧
      (TransferMoney envPostFails world0 walletA.ID walletB.ID 1).world.db.balanceOf walletB.ID =
        some 1 :=
  ⟨(C8_best_effort_side_effects envOK world0 walletA.ID walletB.ID 1
      (some "redis: connection refused") (some "redis: connection refused")
      (some "amqp: channel closed") (by decide) (by decide) (by decide)).1,
    by decide, by decide⟩

/-- C9. Canonical lock order: for distinct ids `a` and `b`, `TransferMoney(a, b, _)`
and `TransferMoney(b, a, _)` request the row locks in the same sequence: first
the id whose canonical string is lexicographically smaller, then the other. The
order is the same function of the pair whichever id is the sender, and the two
ids are distinct. -/
theorem C9_canonical_lock_order (a b : UUID) (hne : a ≠ b) :
    lockOrder b a = lockOrder a b ∧
      (lockOrder a b = (a, b) ∨ lockOrder a b = (b, a)) ∧
      strLess (lockOrder a b).1.string (lockOrder a b).2.string = true ∧
      (lockOrder a b).1 ≠ (lockOrder a b).2 ∧
      ∀ (env : Env) (w : World) (x : Int),
        lockRequests (TransferMoney env w a b x).calls =
          (if 0 < x ∧ env.faults.begin = none then
            (if env.faults.lockFirst = none ∧ (w.db.findWallet (lockOrder a b).1).isSome then
              [(lockOrder a b).1, (lockOrder a b).2] else [(lockOrder a b).1])
          else []) ∧
        lockRequests (TransferMoney env w b a x).calls =
          (if 0 < x ∧ env.faults.begin = none then
            (if env.faults.lockFirst = none ∧ (w.db.findWallet (lockOrder a b).1).isSome then
              [(lockOrder a b).1, (lockOrder a b).2] else [(lockOrder a b).1])
          else []) := by
  refine ⟨lockOrder_symm a b hne, lockOrder_cases a b, lockOrder_less a b hne, ?_, ?_⟩
  · rcases lockOrder_cases a b with h | h
    · rw [h]; exact hne
    · rw [h]; exact fun hh => hne hh.symm
  · intro env w x
    refine ⟨TransferMoney_lockRequests env w a b x hne, ?_⟩
    rw [← lockOrder_symm a b hne]
    exact TransferMoney_lockRequests env w b a x (fun hh => hne hh.symm)

/-- Witness of C9: transfers A to B and B to A both lock A's row, then B's. -/
theorem C9_canonical_lock_order_witness :
    lockRequests (TransferMoney envOK world0 walletA.ID walletB.ID 1).calls =
        [walletA.ID, walletB.ID] ∧
      lockRequests (TransferMoney envOK world0 walletB.ID walletA.ID 1).calls =
        [walletA.ID, walletB.ID] ∧
      lockOrder walletB.ID walletA.ID = lockOrder walletA.ID walletB.ID :=
  ⟨by decide, by decide, (C9_canonical_lock_order walletA.ID walletB.ID (by decide)).1⟩

/-- C10, as stated, fails: with a working store, A holding 1000 and B holding the
greatest `int64`, one transfer of 1 from A to B does not succeed; the receiver's
new balance wraps below 0 and the store refuses it. -/
theorem C10_counterexample :
    envOK.faults.storeOK ∧ worldFull.db.balanceOf walletA.ID = some 1000 ∧
      worldFull.db.balanceOf walletB.ID = some MaxInt64 ∧ (1 : Int) * 1 ≤ 1000 ∧
      (transferSeq [envOK] worldFull walletA.ID walletB.ID 1).1 = [some .CheckViolation] ∧
      (transferSeq [envOK] worldFull walletA.ID walletB.ID 1).2.db.balanceOf walletA.ID =
        some 1000 := by
  decide

/-- C10, amended. No double spend and no lost update over repeated transfers: for
every `n` (the number of environments), every amount `a` above 0 and distinct
existing wallets A and B with `balance(A) >= n*a`, `balance(B) >= 0` and
`balance(B) + n*a` at most the greatest `int64`, `n` calls `TransferMoney(A, B, a)`
made one after the other with no store failure all succeed; afterwards
`balance(A)` is the initial one minus `n*a`, `balance(B)` the initial one plus
`n*a`, and the log has exactly `n` new entries. -/
theorem C10_repeated_transfers (envs : List Env) (w : World) (A B : UUID) (a sb rb : Int)
    (hok : ∀ env ∈ envs, env.faults.storeOK) (hpos : 0 < a) (hne : A ≠ B)
    (hs : w.db.balanceOf A = some sb) (hr : w.db.balanceOf B = some rb)
    (hle : (envs.length : Int) * a ≤ sb) (hsb : sb ≤ MaxInt64) (hrb : 0 ≤ rb)
    (hsum : rb + (envs.length : Int) * a ≤ MaxInt64) :
    (transferSeq envs w A B a).1 = List.replicate envs.length none ∧
      (transferSeq envs w A B a).2.db.balanceOf A = some (sb - (envs.length : Int) * a) ∧
      (transferSeq envs w A B a).2.db.balanceOf B = some (rb + (envs.length : Int) * a) ∧
      ∃ added, (transferSeq envs w A B a).2.db.transactions = w.db.transactions ++ added ∧
        added.length = envs.length := by
  induction envs generalizing w sb rb with
  | nil =>
    simp only [transferSeq, List.length_nil, List.replicate_zero, Nat.cast_zero, zero_mul,
      sub_zero, add_zero, true_and]
    exact ⟨hs, hr, [], by simp, rfl⟩
  | cons env envs ih =>
    have hlen : ((env :: envs).length : Int) * a = (envs.length : Int) * a + a := by
      rw [List.length_cons]; push_cast; ring
    rw [hlen] at hle hsum ⊢
    have hna : 0 ≤ (envs.length : Int) * a :=
      mul_nonneg (Int.ofNat_nonneg _) (le_of_lt hpos)
    obtain ⟨h1, h2, h3, h4⟩ := TransferMoney_success env w A B a sb rb
      (hok env (List.mem_cons_self _ _)) hpos hne hs hr (by linarith) hsb hrb (by linarith)
    obtain ⟨i1, i2, i3, added, i4, i5⟩ := ih (TransferMoney env w A B a).world (sb - a) (rb + a)
      (fun e he => hok e (List.mem_cons_of_mem _ he)) h2 h3 (by linarith) (by linarith)
      (by linarith) (by linarith)
    refine ⟨?_, ?_, ?_, transferRow env A B a :: added, ?_, ?_⟩
    · simp only [transferSeq, h1, i1, List.length_cons, List.replicate_succ]
    · simp only [transferSeq]; rw [i2]; congr 1; ring
    · simp only [transferSeq]; rw [i3]; congr 1; ring
    · simp only [transferSeq]; rw [i4, h4]; simp
    · simp [i5]

/-- Witness of C10 amended: balance(A) = 1000, balance(B) = 0, fifty transfers
of 1 leave 950 and 50. -/
theorem C10_repeated_transfers_witness :
    (transferSeq (List.replicate 50 envOK) world0 walletA.ID walletB.ID 1).1 =
        List.replicate 50 none ∧
      (transferSeq (List.replicate 50 envOK) world0 walletA.ID walletB.ID 1).2.db.balanceOf
        walletA.ID = some 950 ∧
      (transferSeq (List.replicate 50 envOK) world0 walletA.ID walletB.ID 1).2.db.balanceOf
        walletB.ID = some 50 := by
  have h := C10_repeated_transfers (List.replicate 50 envOK) world0 walletA.ID walletB.ID 1
    1000 0 (by decide) (by decide) (by decide) (by decide) (by decide) (by decide) (by decide)
    (by decide) (by decide)
  simp only [List.length_replicate] at h
  exact ⟨h.1, h.2.1, h.2.2.1⟩

/-- C11. Read-through `GetBalance`: on a hit (the cache answers with an entry for
the id) the call returns exactly the cached wallet and makes no other call than
the cache read, so no store read and no cache write; on a miss with the wallet
in the store (the store answering) it returns the store's wallet and, when the
cache write succeeds, the cache entry of the id is that wallet; and when the
cache write fails it still returns the store's wallet and a nil error, the
cache being left as it was. -/
theorem C11_read_through (faults : ReadFaults) (w : World) (walletID : UUID) :
    (∀ cached, faults.cacheGet = none → cacheLookup w.cache walletID = some cached →
      (GetBalance faults w walletID).wallet = some cached ∧
      (GetBalance faults w walletID).err = none ∧
      (GetBalance faults w walletID).calls = [Call.GetWallet walletID] ∧
      (GetBalance faults w walletID).world = w) ∧
    (∀ wallet, cacheLookup w.cache walletID = none → faults.storeGet = none →
      w.db.findWallet walletID = some wallet →
      (GetBalance faults w walletID).wallet = some wallet ∧
      (GetBalance faults w walletID).err = none ∧
      (GetBalance faults w walletID).calls =
        [Call.GetWallet walletID, Call.GetByID walletID, Call.SetWallet wallet] ∧
      (GetBalance faults w walletID).world.db = w.db ∧
      (faults.cacheSet = none →
        cacheLookup (GetBalance faults w walletID).world.cache walletID = some wallet) ∧
      (faults.cacheSet ≠ none → (GetBalance faults w walletID).world.cache = w.cache)) := by
  constructor
  · intro cached hg hc
    rw [GetBalance_hit faults w walletID cached hg hc]
    exact ⟨rfl, rfl, rfl, rfl⟩
  · intro wallet hc hs hf
    rw [GetBalance_store faults w walletID wallet (Or.inl hc) hs hf]
    refine ⟨rfl, rfl, rfl, rfl, ?_, ?_⟩
    · intro hset
      simp only [SetWallet, hset, cacheLookup]
      rw [List.find?_cons_of_pos _ (by simp [findWallet_id hf])]
      rfl
    · intro hset
      cases hcs : faults.cacheSet with
      | none => exact absurd hcs hset
      | some m => simp only [SetWallet]

/-- Witness of C11: a hit on A's cached snapshot, then a miss on A with a cache
that cannot be written. -/
theorem C11_read_through_witness :
    ((GetBalance readOK worldCached walletA.ID).wallet = some walletA ∧
      (GetBalance readOK worldCached walletA.ID).err = none ∧
      (GetBalance readOK worldCached walletA.ID).calls = [Call.GetWallet walletA.ID] ∧
      (GetBalance readOK worldCached walletA.ID).world = worldCached) ∧
    ((GetBalance readSetFails world0 walletA.ID).wallet = some walletA ∧
      (GetBalance readSetFails world0 walletA.ID).err = none) :=
  ⟨(C11_read_through readOK worldCached walletA.ID).1 walletA rfl (by decide),
    (((C11_read_through readSetFails world0 walletA.ID).2 walletA (by decide) rfl
      (by decide)).1),
    (((C11_read_through readSetFails world0 walletA.ID).2 walletA (by decide) rfl
      (by decide)).2.1)⟩

/-- C12. Cache coherency after a transfer: from any state, also one whose cache
holds snapshots of the sender and the receiver, after a `TransferMoney(s, r, a)`
that succeeds and whose two invalidations succeed, a `GetBalance(s)` and a
`GetBalance(r)` (the store answering the read), made in either order, each
return a wallet whose balance is the one the store holds after the transfer:
the previous balance minus `a` for the sender, plus `a` for the receiver, and
not the previous balance. -/
theorem C12_cache_coherency (env : Env) (f1 f2 : ReadFaults) (w : World) (s r : UUID) (a : Int)
    (ha : IsInt64 a) (hw : ∀ x ∈ w.db.wallets, IsInt64 x.Balance)
    (hok : (TransferMoney env w s r a).err = none)
    (hi1 : env.faults.invalidateSender = none) (hi2 : env.faults.invalidateReceiver = none)
    (hs1 : f1.storeGet = none) (hs2 : f2.storeGet = none) :
    ∃ sb rb, w.db.balanceOf s = some sb ∧ w.db.balanceOf r = some rb ∧
      sb - a ≠ sb ∧ rb + a ≠ rb ∧
      (TransferMoney env w s r a).world.db.balanceOf s = some (sb - a) ∧
      (TransferMoney env w s r a).world.db.balanceOf r = some (rb + a) ∧
      (GetBalance f1 (TransferMoney env w s r a).world s).err = none ∧
      (GetBalance f1 (TransferMoney env w s r a).world s).wallet.map (fun x => x.Balance) =
        some (sb - a) ∧
      (GetBalance f2 (GetBalance f1 (TransferMoney env w s r a).world s).world r).err = none ∧
      (GetBalance f2 (GetBalance f1 (TransferMoney env w s r a).world s).world r).wallet.map
        (fun x => x.Balance) = some (rb + a) ∧
      (GetBalance f1 (TransferMoney env w s r a).world r).err = none ∧
      (GetBalance f1 (TransferMoney env w s r a).world r).wallet.map (fun x => x.Balance) =
        some (rb + a) ∧
      (GetBalance f2 (GetBalance f1 (TransferMoney env w s r a).world r).world s).err = none ∧
      (GetBalance f2 (GetBalance f1 (TransferMoney env w s r a).world r).world s).wallet.map
        (fun x => x.Balance) = some (sb - a) := by
  obtain ⟨sb, rb, hb1, hb2, _, hb3, hb4⟩ := TransferMoney_ok_balances env w s r a ha hw hok
  obtain ⟨hpos, hne, _, ws, wr, _, _, _, _, _, heq⟩ := TransferMoney_ok env w s r a hok
  obtain ⟨hc1, hc2⟩ := cacheAfter_none env w.cache s r hi1 hi2
  have hcache : (TransferMoney env w s r a).world.cache = cacheAfter env w.cache s r := by
    rw [heq]
  rw [← hcache] at hc1 hc2
  obtain ⟨xs, hfs, hxs⟩ := balanceOf_some hb3
  obtain ⟨xr, hfr, hxr⟩ := balanceOf_some hb4
  have hne2 : r ≠ s := fun h => hne h.symm
  have e1 := GetBalance_store f1 _ s xs (Or.inl hc1) hs1 hfs
  have e2 := GetBalance_store f1 _ r xr (Or.inl hc2) hs1 hfr
  have d1 := GetBalance_db f1 (TransferMoney env w s r a).world s
  have d2 := GetBalance_db f1 (TransferMoney env w s r a).world r
  have c1 := GetBalance_cache_other f1 (TransferMoney env w s r a).world s r hne2 hc2
  have c2 := GetBalance_cache_other f1 (TransferMoney env w s r a).world r s hne hc1
  have e3 := GetBalance_store f2 (GetBalance f1 (TransferMoney env w s r a).world s).world r xr
    (Or.inl c1) hs2 (by rw [d1]; exact hfr)
  have e4 := GetBalance_store f2 (GetBalance f1 (TransferMoney env w s r a).world r).world s xs
    (Or.inl c2) hs2 (by rw [d2]; exact hfs)
  refine ⟨sb, rb, hb1, hb2, by omega, by omega, hb3, hb4, ?_, ?_, ?_, ?_, ?_, ?_, ?_, ?_⟩
  · rw [e1]
  · rw [e1]; simp [hxs]
  · rw [e3]
  · rw [e3]; simp [hxr]
  · rw [e2]
  · rw [e2]; simp [hxr]
  · rw [e4]
  · rw [e4]; simp [hxs]

/-- Witness of C12: the cache holds the snapshots of A (1000) and B (0) when 1 is
transferred from A to B; the reads that follow return 999 and 1. -/
theorem C12_cache_coherency_witness :
    (GetBalance readOK (TransferMoney envOK worldCached walletA.ID walletB.ID 1).world
        walletA.ID).wallet.map (fun x => x.Balance) = some 999 ∧
      (GetBalance readOK (TransferMoney envOK worldCached walletA.ID walletB.ID 1).world
        walletB.ID).wallet.map (fun x => x.Balance) = some 1 ∧
      ∃ sb rb, worldCached.db.balanceOf walletA.ID = some sb ∧
        worldCached.db.balanceOf walletB.ID = some rb ∧ sb - 1 ≠ sb ∧ rb + 1 ≠ rb :=
  ⟨by decide, by decide,
    (C12_cache_coherency envOK readOK readOK worldCached walletA.ID walletB.ID 1 (by decide)
      (by decide) (by decide) rfl rfl rfl rfl).imp
      (fun _ h => h.imp (fun _ h2 => ⟨h2.1, h2.2.1, h2.2.2.1, h2.2.2.2.1⟩))⟩

/-- C13. Create then read: when the store accepts the insert, `CreateWallet(owner)`
returns a wallet whose owner is the given id and whose balance is 0; it requests
no lock and the table of wallets is the previous one followed by the new row, so
no existing wallet is touched. A `GetBalance` that follows on the returned id
(no cache entry for it, the store answering) succeeds and returns that wallet.
Over HTTP, with a body whose `user_id` the libraries validate and parse to the
owner, `POST /wallets` answers 201 with that wallet, and `GET /wallets/<id>`
for the returned id then answers 200 with it. -/
theorem C13_create_then_read (codec : Codec) (env : CreateEnv) (faults : ReadFaults) (w : World)
    (owner : UUID) (hstore : (CreateWallet env w owner).err = none) :
    ∃ wallet, (CreateWallet env w owner).wallet = some wallet ∧
      wallet.UserID = owner ∧ wallet.Balance = 0 ∧
      lockRequests (CreateWallet env w owner).calls = [] ∧
      (CreateWallet env w owner).world.db.wallets = w.db.wallets ++ [wallet] ∧
      (CreateWallet env w owner).world.db.transactions = w.db.transactions ∧
      (faults.storeGet = none → cacheLookup w.cache wallet.ID = none →
        (GetBalance faults (CreateWallet env w owner).world wallet.ID).err = none ∧
        (GetBalance faults (CreateWallet env w owner).world wallet.ID).wallet = some wallet) ∧
      (codec.validate ⟨owner.string⟩ = none → (codec.Parse owner.string).1 = owner →
        (Handler.CreateWallet codec env w (some ⟨owner.string⟩)).response =
          ⟨201, .Wallet wallet⟩ ∧
        (Handler.CreateWallet codec env w (some ⟨owner.string⟩)).world =
          (CreateWallet env w owner).world) ∧
      (faults.storeGet = none → cacheLookup w.cache wallet.ID = none →
        codec.Parse wallet.ID.string = (wallet.ID, none) →
        (Handler.GetBalance codec faults (CreateWallet env w owner).world
          wallet.ID.string).response = ⟨200, .Wallet wallet⟩) := by
  obtain ⟨hfree, heq⟩ := CreateWallet_ok env w owner hstore
  have hfind := findWallet_append_new w.db (createdRow env owner) hfree
  have hread : faults.storeGet = none → cacheLookup w.cache (createdRow env owner).ID = none →
      GetBalance faults (CreateWallet env w owner).world (createdRow env owner).ID =
        ⟨some (createdRow env owner), none,
          ⟨(CreateWallet env w owner).world.db,
            (SetWallet faults.cacheSet (CreateWallet env w owner).world.cache
              (createdRow env owner)).2, (CreateWallet env w owner).world.queue⟩,
          [Call.GetWallet (createdRow env owner).ID, Call.GetByID (createdRow env owner).ID,
            Call.SetWallet (createdRow env owner)]⟩ := by
    intro hs hc
    apply GetBalance_store
    · left; rw [heq]; exact hc
    · exact hs
    · rw [heq]; exact hfind
  refine ⟨createdRow env owner, by rw [heq], rfl, rfl, by rw [heq]; rfl, by rw [heq],
    by rw [heq], ?_, ?_, ?_⟩
  · intro hs hc
    rw [hread hs hc]
    exact ⟨rfl, rfl⟩
  · intro hv hp
    unfold Handler.CreateWallet
    simp [hv, hp, heq]
  · intro hs hc hp
    unfold Handler.GetBalance
    rw [if_neg (string_ne_empty _)]
    simp only [hp, hread hs hc]

/-- Witness of C13: a wallet is created for an owner in a store that holds A and
B, then read, directly and over HTTP. -/
theorem C13_create_then_read_witness :
    (Handler.CreateWallet canonicalCodec createOK world0
        (some ⟨(UUID.ofByte 60).string⟩)).response.Code = 201 ∧
      (Handler.GetBalance canonicalCodec readOK (CreateWallet createOK world0 (UUID.ofByte 60)).world
        (UUID.ofByte 50).string).response.Code = 200 ∧
      ∃ wallet, (CreateWallet createOK world0 (UUID.ofByte 60)).wallet = some wallet ∧
        wallet.UserID = UUID.ofByte 60 ∧ wallet.Balance = 0 :=
  ⟨by decide, by decide,
    (C13_create_then_read canonicalCodec createOK readOK world0 (UUID.ofByte 60)
      (by decide)).imp (fun _ h => ⟨h.1, h.2.1, h.2.2.1⟩)⟩

/-- C14. Deadlock-freedom: for every pair of wallets A and B and any number of
transfers from A to B and from B to A in flight together, each requesting its
row locks in the order of `lockOrder`, no execution reaches a state in which two
transfers each hold a row lock that the other waits for; in every state reached
in which some transfer has not ended, a lock can be granted or a unit of work
can end; and an execution has at most three steps per transfer, so every
execution ends with all transfers completed. -/
theorem C14_deadlock_freedom (A B : UUID) (pairs : List (UUID × UUID))
    (hp : ∀ p ∈ pairs, p = (A, B) ∨ p = (B, A)) (sched : List (Nat × Move)) (st : List Flight)
    (hrun : run lockPlan (issue pairs) sched = some st) :
    (∀ p ∈ pairs, ∀ (env : Env) (w : World) (x : Int),
      lockRequests (TransferMoney env w p.1 p.2 x).calls <+: lockPlan p.1 p.2) ∧
    deadlocked lockPlan st = false ∧
    ((∃ t ∈ st, t.done = false) → canProceed lockPlan st = true) ∧
    sched.length ≤ 3 * pairs.length := by
  have hinit : followsPlan (lockPlan A B) (issue pairs) := by
    intro t ht
    unfold issue at ht
    rw [List.mem_map] at ht
    obtain ⟨p, hpm, rfl⟩ := ht
    refine ⟨?_, Nat.zero_le _⟩
    rcases hp p hpm with rfl | rfl
    · rfl
    · exact lockPlan_symm A B
  have hprog0 := progress_issue pairs
  obtain ⟨hinv, hlen, hsteps⟩ :=
    run_followsPlan (lockPlan A B) (lockPlan_length A B) sched (issue pairs) st hinit hrun
  have hle := progress_le (lockPlan A B) (lockPlan_length A B) st hinv
  have hlen0 : (issue pairs).length = pairs.length := by unfold issue; simp
  refine ⟨fun p _ env w x => lockRequests_prefix_lockPlan env w p.1 p.2 x,
    followsPlan_not_deadlocked (lockPlan A B) (lockPlan_nodup A B) st hinv, ?_, by omega⟩
  rintro ⟨t, ht, hd⟩
  exact followsPlan_canProceed (lockPlan A B) (lockPlan_nodup A B) st hinv
    ((lockPlan A B).length - t.held) t ht hd (le_refl _)

/-- Witness of C14: a transfer from A to B and one from B to A; the first has
been granted its first lock, the row of A, which the second waits for. -/
theorem C14_deadlock_freedom_witness :
    deadlocked lockPlan [⟨walletA.ID, walletB.ID, 1, false⟩, ⟨walletB.ID, walletA.ID, 0, false⟩] =
        false ∧
      canProceed lockPlan
        [⟨walletA.ID, walletB.ID, 1, false⟩, ⟨walletB.ID, walletA.ID, 0, false⟩] = true :=
  ⟨(C14_deadlock_freedom walletA.ID walletB.ID
      [(walletA.ID, walletB.ID), (walletB.ID, walletA.ID)] (by decide) [(0, .grant)]
      [⟨walletA.ID, walletB.ID, 1, false⟩, ⟨walletB.ID, walletA.ID, 0, false⟩] (by decide)).2.1,
    by decide⟩

/-- C15. Worker acknowledgment: over the deliveries taken from the queue (their
tags distinct), what the worker does is, delivery after delivery, a reject
`Nack(false, false)` and nothing else when the body does not decode, and
otherwise one `processTransfer` of the decoded event followed by `Ack(false)`.
Every delivery receives exactly one ack or reject, and no action requeues a
delivery or covers more than one. -/
theorem C15_worker_acknowledgment (decode : List Nat → Option TransferEvent)
    (msgs : List Delivery) (hnodup : (msgs.map (fun d => d.DeliveryTag)).Nodup) :
    (∀ before d after, msgs = before ++ d :: after →
      Worker.Start decode msgs = Worker.Start decode before ++ Worker.handles decode d ++
        Worker.Start decode after ∧
      (decode d.Body = none → Worker.handles decode d = [.Nack d.DeliveryTag false false]) ∧
      (∀ event, decode d.Body = some event →
        Worker.handles decode d = [.processTransfer event, .Ack d.DeliveryTag false])) ∧
    (∀ d ∈ msgs,
      ((Worker.Start decode msgs).filter (WorkerAction.settles d.DeliveryTag)).length = 1) ∧
    (∀ a ∈ Worker.Start decode msgs, a.requeuesOrMultiple = false) := by
  refine ⟨?_, ?_, ?_⟩
  · intro before d after hsplit
    refine ⟨?_, ?_, ?_⟩
    · rw [hsplit, Worker_Start_append, Worker_Start_cons, List.append_assoc]
    · intro h; simp only [Worker.handles, h]
    · intro event h; simp only [Worker.handles, h]
  · intro d hd
    rw [Worker_Start_settles]
    exact filter_tag_length_one msgs d hnodup hd
  · intro a ha
    clear hnodup
    induction msgs with
    | nil => cases ha
    | cons d ds ih =>
      rw [Worker_Start_cons, List.mem_append] at ha
      rcases ha with h | h
      · unfold Worker.handles at h
        cases hdec : decode d.Body with
        | none =>
          simp only [hdec, List.mem_singleton] at h
          subst h; rfl
        | some event =>
          simp only [hdec, List.mem_cons, List.mem_singleton, List.not_mem_nil, or_false] at h
          rcases h with rfl | rfl <;> rfl
      · exact ih h

/-- Witness of C15: a delivery whose body does not decode, then one that does. -/
theorem C15_worker_acknowledgment_witness :
    Worker.Start decodeNonEmpty [⟨1, []⟩, ⟨2, [123, 125]⟩] =
        [.Nack 1 false false,
          .processTransfer ⟨UUID.ofByte 99, UUID.ofByte 1, UUID.ofByte 2, 1⟩, .Ack 2 false] ∧
      ((Worker.Start decodeNonEmpty [⟨1, []⟩, ⟨2, [123, 125]⟩]).filter
        (WorkerAction.settles 1)).length = 1 :=
  ⟨by decide,
    (C15_worker_acknowledgment decodeNonEmpty [⟨1, []⟩, ⟨2, [123, 125]⟩] (by decide)).2.1
      ⟨1, []⟩ (by decide)⟩

/-- C16, as stated, fails: a transfer that succeeds changes, in the sender's row,
the update time as well as the balance. -/
theorem C16_counterexample :
    world0.db.findWallet walletA.ID = some ⟨UUID.ofByte 1, UUID.ofByte 11, 1000, 0, 0⟩ ∧
      (TransferMoney envOK world0 walletA.ID walletB.ID 1).world.db.findWallet walletA.ID =
        some ⟨UUID.ofByte 1, UUID.ofByte 11, 999, 0, 5⟩ := by
  decide

/-- C16, amended. Frame of a transfer: whatever the outcome of a call of
`TransferMoney`, the table of wallets afterwards is the previous one row by row
(no wallet is created or deleted); every row whose id is neither the sender's
nor the receiver's is unchanged; and in the rows of the sender and the receiver
the id, the owner id and the creation time are unchanged: only the balance and
the update time, which becomes the time of the update, can change. -/
theorem C16_transfer_frame (env : Env) (w : World) (senderID receiverID : UUID) (amount : Int) :
    ∃ f : Wallet → Wallet,
      (TransferMoney env w senderID receiverID amount).world.db.wallets = w.db.wallets.map f ∧
      ∀ x, (f x).ID = x.ID ∧ (f x).UserID = x.UserID ∧ (f x).CreatedAt = x.CreatedAt ∧
        ((f x).UpdatedAt = x.UpdatedAt ∨ (f x).UpdatedAt = env.now) ∧
        (x.ID ≠ senderID → x.ID ≠ receiverID → f x = x) := by
  cases he : (TransferMoney env w senderID receiverID amount).err with
  | some e =>
    refine ⟨id, ?_, ?_⟩
    · rw [(TransferMoney_err_world env w senderID receiverID amount e he).1]; simp
    · intro x; exact ⟨rfl, rfl, rfl, Or.inl rfl, fun _ _ => rfl⟩
  | none =>
    obtain ⟨_, hne, _, ws, wr, hs, hr, _, _, _, heq⟩ :=
      TransferMoney_ok env w senderID receiverID amount he
    have hsid := findWallet_id hs
    have hrid := findWallet_id hr
    refine ⟨fun x => setBalance env.now wr.ID (wrap64 (wr.Balance + amount))
      (setBalance env.now ws.ID (wrap64 (ws.Balance - amount)) x), ?_, ?_⟩
    · rw [heq]; simp [settledWallets]
    · intro x
      rw [hsid, hrid]
      obtain ⟨a1, a2, a3, a4, a5⟩ :=
        setBalance_frame env.now senderID (wrap64 (ws.Balance - amount)) x
      obtain ⟨b1, b2, b3, b4, b5⟩ :=
        setBalance_frame env.now receiverID (wrap64 (wr.Balance + amount))
          (setBalance env.now senderID (wrap64 (ws.Balance - amount)) x)
      refine ⟨b1.trans a1, b2.trans a2, b3.trans a3, ?_, ?_⟩
      · rcases b4 with h | h
        · rcases a4 with h2 | h2
          · exact Or.inl (h.trans h2)
          · exact Or.inr (h.trans h2)
        · exact Or.inr h
      · intro h1 h2
        simp only
        rw [a5 h1]
        exact (setBalance_frame env.now receiverID (wrap64 (wr.Balance + amount)) x).2.2.2.2 h2

end DigitalWallet
